import Mathlib

/-!
Shallow embedding of `torch/_dynamo/resume_execution.py` (the bytecode
continuation generator) and proofs about it.

Python object identity is modelled by a `uid : Nat` carried by every
instruction and code unit; fresh objects draw fresh uids from an explicit
counter.  Jump targets and exception-table targets are uids of instructions.
The external helpers from `bytecode_transformation.py` (not part of the
sources) are modelled from the spec where they matter, each marked with a
doc comment starting `Modelled from the spec:`.
-/

set_option maxRecDepth 4000

namespace ResumeExecution

/-- Flag constants, taken from `code.h` exactly as in the source. -/
def CO_OPTIMIZED : Nat := 0x0001

def CO_VARARGS : Nat := 0x0004

def CO_VARKEYWORDS : Nat := 0x0008

def CO_GENERATOR : Nat := 0x0020

def CO_COROUTINE : Nat := 0x0080

def CO_ITERABLE_COROUTINE : Nat := 0x0100

def CO_ASYNC_GENERATOR : Nat := 0x0200

/-- The generator-like flag mask rejected by `generate`. -/
def genLikeMask : Nat := CO_GENERATOR ||| CO_COROUTINE ||| CO_ITERABLE_COROUTINE ||| CO_ASYNC_GENERATOR

def TORCH_DYNAMO_RESUME_IN_PREFIX : String := "torch_dynamo_resume_in"

/-- An exception-table entry attached to an instruction (dynamo's
`InstructionExnTabEntry`): start/end/target are uids of instructions. -/
structure ExnEntry where
  start : Nat
  stop : Nat
  target : Nat
  depth : Int
  lasti : Bool
deriving DecidableEq, Repr

/-- A dynamo `Instruction`.  `uid` models Python object identity;
`jumpTargetUid` models the `target` field; `exn` the `exn_tab_entry`. -/
structure Instruction where
  uid : Nat
  opname : String
  arg : Option Int
  argval : Option String
  offset : Option Nat
  startsLine : Option Nat
  jumpTargetUid : Option Nat
  exn : Option ExnEntry
deriving DecidableEq, Repr

def mkInst (u : Nat) (op : String) : Instruction :=
  ⟨u, op, none, none, none, none, none, none⟩

def mkInstA (u : Nat) (op : String) (a : Int) : Instruction :=
  ⟨u, op, some a, none, none, none, none, none⟩

def mkInstV (u : Nat) (op : String) (v : String) : Instruction :=
  ⟨u, op, none, some v, none, none, none, none⟩

def withExn (i : Instruction) (e : ExnEntry) : Instruction :=
  { i with exn := some e }

/-- Error taxonomy (spec section 7);  `assertionViolation` stands for a bare
Python `assert` or runtime exception not named by the spec, `fuelOut` for the
recursion bound of the fuelled interpreter. -/
inductive Err where
  | unsupportedUnitKind
  | templateMarkerNotFound
  | structuralInconsistency
  | assertionViolation
  | fuelOut
deriving DecidableEq, Repr

/-! Association lists modelling Python `dict` (insert-or-replace keeps the
key unique, lookup finds the unique binding, pop removes it). -/

def dget {α β : Type} [DecidableEq α] : List (α × β) → α → Option β
  | [], _ => none
  | (a, b) :: l, k => if a = k then some b else dget l k

def dinsert {α β : Type} [DecidableEq α] (l : List (α × β)) (k : α) (v : β) : List (α × β) :=
  if (dget l k).isSome then l.map (fun p => if p.1 = k then (k, v) else p) else l ++ [(k, v)]

def dpop {α β : Type} [DecidableEq α] (l : List (α × β)) (k : α) : List (α × β) :=
  l.filter (fun p => decide (p.1 ≠ k))

def dmem {α β : Type} [DecidableEq α] (l : List (α × β)) (k : α) : Bool :=
  (dget l k).isSome

/-! ## `_bytecode_from_template_with_split` -/

def isDummyLoad (i : Instruction) : Bool :=
  i.opname == "LOAD_FAST" && i.argval == some "dummy"

/-- Depth adjustment of lines 50-53: every instruction carrying an
exception-table entry has that entry's depth increased by `stackIndex`. -/
def bumpDepth (stackIndex : Int) (i : Instruction) : Instruction :=
  match i.exn with
  | some e => { i with exn := some { e with depth := e.depth + stackIndex } }
  | none => i

/-- Modelled from the spec: dynamo's `overwrite_instruction` replaces an
instruction in place with a fresh `NOP`, preserving its identity (so that
jumps and exception entries that target it keep pointing at the marker). -/
def overwriteNop (i : Instruction) : Instruction :=
  ⟨i.uid, "NOP", none, none, i.offset, none, none, none⟩

/-- `_bytecode_from_template_with_split`, acting on the already compiled
template (`bytecode_from_template` is external to the sources, so the
compiled snippet is taken as input).  Appends a `POP_TOP`, bumps every
exception-entry depth by `stackIndex`, finds the first `LOAD_FAST dummy`,
replaces it and the following `POP_TOP` by `NOP` markers and splits. -/
def bytecodeFromTemplateWithSplit (tmpl : List Instruction) (stackIndex : Int) (ctr : Nat) :
    Except Err (List Instruction × List Instruction × Nat) :=
  let tc := (tmpl ++ [mkInst ctr "POP_TOP"]).map (bumpDepth stackIndex)
  match tc.findIdx? isDummyLoad with
  | none => .error .templateMarkerNotFound
  | some di =>
    match tc.get? di with
    | none => .error .templateMarkerNotFound
    | some dummyInst =>
      let tc1 := tc.set di (overwriteNop dummyInst)
      match tc1.get? (di + 1) with
      | none => .error .assertionViolation
      | some nxt =>
        if nxt.opname == "POP_TOP" then
          let tc2 := tc1.set (di + 1) (overwriteNop nxt)
          .ok (tc2.take (di + 1), tc2.drop (di + 1), ctr + 1)
        else .error .assertionViolation

/-! ## `ReenterWith` (only the direct re-entry strategy `__call__` is invoked
by `generate`; the other two strategies are exercised elsewhere). -/

structure ReenterWith where
  stack_index : Int
  target_values : Option (List String)
deriving DecidableEq, Repr

/-- `_initial_push_null` (lines 38-42): `ver` is the minor version of the
host 3.x interpreter. -/
def initialPushNull (ver : Nat) (ctr : Nat) : List Instruction × Nat :=
  if 11 ≤ ver then
    if ver < 13 then ([mkInst ctr "PUSH_NULL", mkInstA (ctr + 1) "SWAP" 2], ctr + 2)
    else ([mkInst ctr "PUSH_NULL"], ctr + 1)
  else ([], ctr)

/-- Modelled from the spec: `create_call_function` of the external
`bytecode_transformation` module; a single call opcode consuming `n`
arguments suffices for this development. -/
def createCallFunction (ctr : Nat) (n : Nat) : List Instruction × Nat :=
  ([mkInstA ctr "CALL_FUNCTION" (Int.ofNat n)], ctr + 1)

/-- Modelled from the spec: the compiled form of the direct re-entry
template `with ctx: dummy` (section 4.2); the compiler primitive
`bytecode_from_template` is external to the sources.  On structural
exception-region eras (3.11+) the fragment carries a region over the body
(crossing the placeholder) whose handler is the single exception-info
capture point `PUSH_EXC_INFO` of the part after the placeholder, plus the
handler's own region; on block-based eras it uses setup/cleanup block
opcodes and no structural regions.  Template instructions carry no line
markers. -/
def withTemplateCompiled (ver : Nat) (ctr : Nat) : List Instruction × Nat :=
  if 11 ≤ ver then
    let eA : ExnEntry := ⟨ctr + 2, ctr + 4, ctr + 7, 1, true⟩
    let eB : ExnEntry := ⟨ctr + 7, ctr + 8, ctr + 9, 3, true⟩
    ([mkInstV ctr "LOAD_FAST" "ctx",
      mkInst (ctr + 1) "BEFORE_WITH",
      withExn (mkInst (ctr + 2) "POP_TOP") eA,
      withExn (mkInstV (ctr + 3) "LOAD_FAST" "dummy") eA,
      withExn (mkInst (ctr + 4) "POP_TOP") eA,
      mkInstV (ctr + 5) "LOAD_CONST" "None",
      mkInst (ctr + 6) "POP_TOP",
      withExn (mkInst (ctr + 7) "PUSH_EXC_INFO") eB,
      withExn (mkInst (ctr + 8) "WITH_EXCEPT_START") eB,
      mkInstA (ctr + 9) "RERAISE" 2], ctr + 10)
  else
    ([mkInstV ctr "LOAD_FAST" "ctx",
      mkInst (ctr + 1) "SETUP_WITH",
      mkInst (ctr + 2) "POP_TOP",
      mkInstV (ctr + 3) "LOAD_FAST" "dummy",
      mkInst (ctr + 4) "POP_TOP",
      mkInst (ctr + 5) "POP_BLOCK",
      mkInst (ctr + 6) "BEGIN_FINALLY",
      mkInst (ctr + 7) "WITH_CLEANUP_START",
      mkInst (ctr + 8) "WITH_CLEANUP_FINISH",
      mkInst (ctr + 9) "END_FINALLY"], ctr + 10)

def isCtxLoad (i : Instruction) : Bool :=
  i.opname == "LOAD_FAST" && i.argval == some "ctx"

/-- `ReenterWith.__call__` (lines 160-209): returns the setup fragment, the
optional guard-entry (`PUSH_EXC_INFO`) instruction of the epilogue, the new
cleanup accumulator (epilogue prepended), and the uid counter. -/
def ReenterWith.call (rw : ReenterWith) (ver : Nat) (ctr : Nat) (cleanup : List Instruction) :
    Except Err (List Instruction × Option Instruction × List Instruction × Nat) :=
  let vals := match rw.target_values with
    | some vs => vs
    | none => []
  let pnc := initialPushNull ver ctr
  let c1 := pnc.2
  let loadArgs := vals.enum.map (fun p => mkInstV (c1 + p.1) "LOAD_CONST" p.2)
  let cc := createCallFunction (c1 + vals.length) vals.length
  let createCtx := pnc.1 ++ loadArgs ++ cc.1
  let tm := withTemplateCompiled ver cc.2
  let tmpl := tm.1
  match bytecodeFromTemplateWithSplit tmpl rw.stack_index tm.2 with
  | .error e => .error e
  | .ok sep =>
    let setupWith := sep.1
    let epilogue := sep.2.1
    match setupWith.findIdx? isCtxLoad with
    | none => .error .assertionViolation
    | some ci =>
      match setupWith.get? ci with
      | none => .error .assertionViolation
      | some ctxInst =>
        let setupWith1 := setupWith.set ci (overwriteNop ctxInst)
        let pushExcs := epilogue.filter (fun i => i.opname == "PUSH_EXC_INFO")
        if pushExcs.length ≤ 1 then
          .ok (createCtx ++ setupWith1, pushExcs.head?, epilogue ++ cleanup, sep.2.2)
        else .error .assertionViolation

/-- `_load_tuple_and_call` (lines 247-252). -/
def loadTupleAndCall (ver : Nat) (ctr : Nat) (tup : List String) : List Instruction × Nat :=
  let pnc := initialPushNull ver ctr
  let c1 := pnc.2
  let consts := tup.enum.map (fun p => mkInstV (c1 + p.1) "LOAD_CONST" p.2)
  let cc := createCallFunction (c1 + tup.length) tup.length
  (pnc.1 ++ consts ++ cc.1, cc.2)

/-! ## Code units, resume keys, metadata, cache state -/

/-- A code object (`types.CodeType`); `uid` models its identity (the weak
cache keys).  Immutable once constructed. -/
structure CodeUnit where
  uid : Nat
  flags : Nat
  name : String
  qualname : String
  firstlineno : Nat
  argcount : Nat
  posonlyargcount : Nat
  kwonlyargcount : Nat
  varnames : List String
  cellvars : List String
  freevars : List String
  insts : List Instruction
deriving DecidableEq, Repr

/-- The draft attribute table handed to the transform callback
(`code_options`). -/
structure CodeOptions where
  name : String
  qualname : String
  firstlineno : Nat
  argcount : Nat
  posonlyargcount : Nat
  kwonlyargcount : Nat
  varnames : List String
  cellvars : List String
  freevars : List String
  flags : Nat
deriving DecidableEq, Repr

def codeOptionsOf (c : CodeUnit) : CodeOptions :=
  ⟨c.name, c.qualname, c.firstlineno, c.argcount, c.posonlyargcount, c.kwonlyargcount,
    c.varnames, c.cellvars, c.freevars, c.flags⟩

/-- Modelled from the spec: the external assembler of
`transform_code_object` recomputes consistent, unique, increasing byte
offsets for the final stream. -/
def assembleFrom (i : Nat) : List Instruction → List Instruction
  | [] => []
  | inst :: rest => { inst with offset := some (2 * i) } :: assembleFrom (i + 1) rest

def assemble (insts : List Instruction) : List Instruction :=
  assembleFrom 0 insts

def buildCode (u : Nat) (o : CodeOptions) (insts : List Instruction) : CodeUnit :=
  ⟨u, o.flags, o.name, o.qualname, o.firstlineno, o.argcount, o.posonlyargcount,
    o.kwonlyargcount, o.varnames, o.cellvars, o.freevars, assemble insts⟩

/-- The ten-component resume key passed to `lookup` after `code` and
`lineno`; compared structurally (the memo key). -/
structure ResumeKey where
  offset : Nat
  setup_fn_target_offsets : List Nat
  nstack : Nat
  argnames : List String
  argnames_null : List String
  setup_fns : List ReenterWith
  stack_ctx_vars : List (Nat × List String)
  argnames_ctx_vars : List (String × List String)
  null_idxes : List Nat
deriving DecidableEq, Repr

/-- `ResumeFunctionMetadata`. -/
structure ResumeFunctionMetadata where
  code : CodeUnit
  instructions : List Instruction
  prefixBlockTargetOffsetRemap : List Nat
  blockTargetOffsetRemap : Option (List (Nat × Nat))
deriving DecidableEq, Repr

/-- The process-wide state of `ContinueExecutionCache`: the memo table
`cache[code][key]`, the `generated_code_metadata` table, and the fresh-uid
counter standing for the allocator. -/
structure CacheState where
  nextId : Nat
  cache : List (Nat × List (ResumeKey × CodeUnit))
  metadata : List (Nat × ResumeFunctionMetadata)
deriving DecidableEq, Repr

def cacheGet (st : CacheState) (cuid : Nat) (k : ResumeKey) : Option CodeUnit :=
  match dget st.cache cuid with
  | none => none
  | some d => dget d k

def cacheSet (st : CacheState) (cuid : Nat) (k : ResumeKey) (u : CodeUnit) : CacheState :=
  let inner := match dget st.cache cuid with
    | none => []
    | some d => d
  { st with cache := dinsert st.cache cuid (dinsert inner k u) }

def metaGet (st : CacheState) (cuid : Nat) : Option ResumeFunctionMetadata :=
  dget st.metadata cuid

def metaSet (st : CacheState) (cuid : Nat) (m : ResumeFunctionMetadata) : CacheState :=
  { st with metadata := dinsert st.metadata cuid m }

/-! ## Root-case synthesis (`ContinueExecutionCache.generate`, lines 268-448) -/

def strLe (a b : String) : Bool := !(compare a b == Ordering.gt)

def insertStr (a : String) : List String → List String
  | [] => [a]
  | b :: l => if strLe a b then a :: b :: l else b :: insertStr a l

/-- Python `sorted` on strings. -/
def sortStrs : List String → List String
  | [] => []
  | a :: l => insertStr a (sortStrs l)

/-- `args.extend(v for v in argnames if v not in args)`: the membership test
sees the list as it grows, so duplicates inside `argnames` collapse too. -/
def extendUnique (args : List String) : List String → List String
  | [] => args
  | v :: r => if v ∈ args then extendUnique args r else extendUnique (args ++ [v]) r

def stackName (i : Nat) : String := "___stack" ++ toString i

def argsOf (nstack : Nat) (argnames : List String) : List String :=
  extendUnique ((List.range nstack).map stackName) argnames

def resumePrefixedName (old : String) (lineno : Nat) : String :=
  TORCH_DYNAMO_RESUME_IN_PREFIX ++ "_" ++ old ++ "_at_" ++ toString lineno

/-- The `co_qualname` rewrite of lines 320-328 (`rsplit(".", maxsplit=1)`). -/
def resumeQualname (oldQualname newName : String) (lineno : Nat) : String :=
  let parts := oldQualname.splitOn "."
  match parts.reverse with
  | [] => newName
  | [_] => newName
  | last :: restRev =>
    String.intercalate "." restRev.reverse ++ "." ++ resumePrefixedName last lineno

/-- Lines 310-342: the attribute-table rewrite of the root case.  Returns
the new options together with the `args` parameter list. -/
def preparedOptions (ver : Nat) (c : CodeUnit) (lineno : Nat) (k : ResumeKey) :
    CodeOptions × List String :=
  let o := codeOptionsOf c
  let args := argsOf k.nstack k.argnames
  let fv := sortStrs (o.cellvars ++ o.freevars)
  let newName := resumePrefixedName o.name lineno
  let newQual := if 11 ≤ ver then resumeQualname o.qualname newName lineno else o.qualname
  ({ o with
      name := newName
      qualname := newQual
      firstlineno := lineno
      cellvars := []
      freevars := fv
      argcount := args.length
      posonlyargcount := 0
      kwonlyargcount := 0
      varnames :=
        args ++ k.argnames_null.filter (fun v => decide (v ∉ args)) ++
          o.varnames.filter (fun v => decide (v ∉ args))
      flags := o.flags - (o.flags &&& (CO_VARARGS ||| CO_VARKEYWORDS)) }, args)

def buildHooks (fns : List ReenterWith) : List (Int × ReenterWith) :=
  fns.foldl (fun d fn => dinsert d fn.stack_index fn) []

/-- The dict comprehension of lines 355-358; indexing
`setup_fn_target_offsets[i]` raises when the offsets tuple is shorter. -/
def buildHookTargets (fns : List ReenterWith) (offs : List Nat) :
    Except Err (List (Int × Nat)) :=
  if fns.length ≤ offs.length then
    .ok ((fns.zip (offs.take fns.length)).foldl (fun d p => dinsert d p.1.stack_index p.2) [])
  else .error .assertionViolation

def offsetToInst (insts : List Instruction) : List (Nat × Instruction) :=
  insts.foldl
    (fun d i =>
      match i.offset with
      | some o => dinsert d o i
      | none => d) []

/-- The inner `while` of lines 365-370 emitting `PUSH_NULL` for the null
indices due at stack position `i`. -/
def emitNulls (i : Nat) : List Nat → Nat → Nat → List Instruction × List Nat × Nat × Nat
  | [], ni, ctr => ([], [], ni, ctr)
  | x :: rest, ni, ctr =>
    if x = i + ni then
      let e := emitNulls i rest (ni + 1) (ctr + 1)
      (mkInst ctr "PUSH_NULL" :: e.1, e.2)
    else ([], x :: rest, ni, ctr)

/-- Mutable state of the stack-rehydration loop of lines 364-385. -/
structure LoopAcc where
  pfx : List Instruction
  cleanup : List Instruction
  hooks : List (Int × ReenterWith)
  hookTargets : List (Int × Nat)
  remapKeys : List Nat
  remap : List (Nat × Nat)
  nullRem : List Nat
  ni : Nat
  ctr : Nat
deriving Repr

/-- Lines 372-380: splice one re-entry strategy at slot `i` and, on 3.11+,
record the old-target-to-guard-entry remapping.  The 3.11+ template always
produces its guard-entry capture point, so a missing one is an internal
violation. -/
def processHook (ver : Nat) (o2i : List (Nat × Instruction)) (hook : ReenterWith) (i : Nat)
    (acc : LoopAcc) : Except Err LoopAcc :=
  match hook.call ver acc.ctr acc.cleanup with
  | .error e => .error e
  | .ok res =>
    let hookInsts := res.1
    let exnTarget := res.2.1
    let cleanup' := res.2.2.1
    let c' := res.2.2.2
    if 11 ≤ ver then
      match dget acc.hookTargets (Int.ofNat i) with
      | none => .error .structuralInconsistency
      | some hto =>
        match dget o2i hto with
        | none => .error .structuralInconsistency
        | some oldHookTarget =>
          match exnTarget with
          | none => .error .assertionViolation
          | some et =>
            .ok { acc with
              pfx := acc.pfx ++ hookInsts
              cleanup := cleanup'
              hooks := dpop acc.hooks (Int.ofNat i)
              hookTargets := dpop acc.hookTargets (Int.ofNat i)
              remapKeys := acc.remapKeys ++ [hto]
              remap := dinsert acc.remap oldHookTarget.uid et.uid
              ctr := c' }
    else
      .ok { acc with
        pfx := acc.pfx ++ hookInsts
        cleanup := cleanup'
        hooks := dpop acc.hooks (Int.ofNat i)
        ctr := c' }

/-- One iteration of the loop of lines 364-385 at stack index `i`; the
context-variable table is consulted as the dict of the pair list (a later
pair with the same slot overrides an earlier one, hence the reversal). -/
def stackLoopStep (ver : Nat) (o2i : List (Nat × Instruction))
    (scv : List (Nat × List String)) (acc : LoopAcc) (i : Nat) : Except Err LoopAcc :=
  let en := emitNulls i acc.nullRem acc.ni acc.ctr
  let c1 := en.2.2.2
  let acc1 := { acc with
    pfx := acc.pfx ++ en.1 ++ [mkInstV c1 "LOAD_FAST" (stackName i)]
    nullRem := en.2.1
    ni := en.2.2.1
    ctr := c1 + 1 }
  let afterHook :=
    match dget acc1.hooks (Int.ofNat i) with
    | none => Except.ok acc1
    | some hook => processHook ver o2i hook i acc1
  match afterHook with
  | .error e => .error e
  | .ok acc2 =>
    match dget scv.reverse (i + acc2.ni) with
    | none => .ok acc2
    | some vals =>
      let lt := loadTupleAndCall ver acc2.ctr vals
      .ok { acc2 with pfx := acc2.pfx ++ lt.1, ctr := lt.2 }

def stackLoop (ver : Nat) (o2i : List (Nat × Instruction)) (scv : List (Nat × List String)) :
    List Nat → LoopAcc → Except Err LoopAcc
  | [], acc => .ok acc
  | i :: rest, acc =>
    match stackLoopStep ver o2i scv acc i with
    | .error e => .error e
    | .ok acc' => stackLoop ver o2i scv rest acc'

/-- Lines 398-401: re-initialize inactive context variables held in locals. -/
def ctxVarsInsts (ver : Nat) (ctr : Nat) : List (String × List String) → List Instruction × Nat
  | [] => ([], ctr)
  | (n, vals) :: rest =>
    let ld := mkInstV ctr "LOAD_FAST" n
    let lt := loadTupleAndCall ver (ctr + 1) vals
    let stv := mkInstV lt.2 "STORE_FAST" n
    let tl := ctxVarsInsts ver (lt.2 + 1) rest
    (ld :: lt.1 ++ stv :: tl.1, tl.2)

/-- Lines 403-413: `PUSH_NULL`/`STORE_FAST` pairs for names null at capture
time (3.12+ only, and such a name must not be a parameter). -/
def argnamesNullInsts (ver : Nat) (args : List String) (ctr : Nat) :
    List String → Except Err (List Instruction × Nat)
  | [] => .ok ([], ctr)
  | v :: rest =>
    if ¬ 12 ≤ ver then .error .assertionViolation
    else if v ∈ args then .error .assertionViolation
    else
      match argnamesNullInsts ver args (ctr + 2) rest with
      | .error e => .error e
      | .ok lc =>
        .ok (mkInst ctr "PUSH_NULL" :: mkInstV (ctr + 1) "STORE_FAST" v :: lc.1, lc.2)

/-- Lines 420-425: remove line markers from every instruction strictly
before the jump target (the finer `positions` metadata of 3.11+ is not
modelled separately from the line marker). -/
def stripLines (targetOffset : Option Nat) : List Instruction → List Instruction
  | [] => []
  | inst :: rest =>
    if inst.offset = targetOffset then inst :: rest
    else { inst with startsLine := none } :: stripLines targetOffset rest

/-- One instruction of the remap pass of lines 431-441. -/
def remapInst (remap : List (Nat × Nat)) (inst : Instruction) : Instruction :=
  match inst.exn with
  | none => inst
  | some e =>
    match dget remap e.target with
    | none => inst
    | some t' => { inst with exn := some { e with target := t' } }

/-- Lines 431-441: rewrite exception entries of the copied original stream
whose target is a replaced resource hook target. -/
def remapExnTargets (remap : List (Nat × Nat)) (insts : List Instruction) : List Instruction :=
  insts.map (remapInst remap)

/-- `unreachable_codes` (lines 450-456). -/
def unreachableCodes (ctr : Nat) : List Instruction × Nat :=
  ([mkInstV ctr "LOAD_CONST" "None", mkInstA (ctr + 1) "RAISE_VARARGS" 1], ctr + 2)

/-- The frame-setup part of the prologue (lines 346-351) together with the
advanced uid counter. -/
def frameSetup (ver : Nat) (fv : List String) (ctr0 : Nat) : List Instruction × Nat :=
  if 11 ≤ ver then
    if fv ≠ [] then
      ([mkInstA ctr0 "COPY_FREE_VARS" (Int.ofNat fv.length),
        mkInstA (ctr0 + 1) "RESUME" 0], ctr0 + 2)
    else ([mkInstA ctr0 "RESUME" 0], ctr0 + 1)
  else ([], ctr0)

/-- The prologue together with the spliced cleanup fragments and the
unreachable raise (lines 427-429), paired with the next free uid. -/
def prologueWithCleanup (pfx1 cleanup : List Instruction) (ctr : Nat) :
    List Instruction × Nat :=
  if cleanup ≠ [] then
    (pfx1 ++ cleanup ++ (unreachableCodes ctr).1, (unreachableCodes ctr).2)
  else (pfx1, ctr)

/-- The copied original stream after the strip pass, with exception targets
rewritten when any resource hook target was replaced (lines 431-441). -/
def finalOriginals (remap : List (Nat × Nat)) (stripped : List Instruction) :
    List Instruction :=
  if remap ≠ [] then remapExnTargets remap stripped else stripped

theorem prologueWithCleanup_nil (pfx1 : List Instruction) (ctr : Nat) :
    prologueWithCleanup pfx1 [] ctr = (pfx1, ctr) := by
  simp [prologueWithCleanup]

theorem finalOriginals_nil (stripped : List Instruction) :
    finalOriginals [] stripped = stripped := by
  simp [finalOriginals]

/-- The whole root-case synthesis (`generate`, lines 304-448): rewrite the
attribute table, build the prologue, strip leading line markers, splice
cleanup fragments and the unreachable raise, remap exception targets, and
register fresh metadata keyed by the new unit. -/
def generateRoot (ver : Nat) (st : CacheState) (c : CodeUnit) (lineno : Nat) (k : ResumeKey) :
    Except Err (CodeUnit × CacheState) :=
  let metaInsts := c.insts
  let po := preparedOptions ver c lineno k
  let opts := po.1
  let args := po.2
  match c.insts.find? (fun i => i.offset == some k.offset) with
  | none => .error .structuralInconsistency
  | some target =>
    let fr := frameSetup ver opts.freevars st.nextId
    match buildHookTargets k.setup_fns k.setup_fn_target_offsets with
    | .error e => .error e
    | .ok hookT =>
      let acc0 : LoopAcc :=
        ⟨fr.1, [], buildHooks k.setup_fns, hookT, [], [], k.null_idxes, 0, fr.2⟩
      match stackLoop ver (offsetToInst c.insts) k.stack_ctx_vars (List.range k.nstack) acc0 with
      | .error e => .error e
      | .ok acc =>
        let remapKeysFinal := if 11 ≤ ver then acc.remapKeys.reverse else acc.remapKeys
        if acc.hooks ≠ [] then .error .structuralInconsistency
        else
          let cv := ctxVarsInsts ver acc.ctr k.argnames_ctx_vars
          match argnamesNullInsts ver args cv.2 k.argnames_null with
          | .error e => .error e
          | .ok anic =>
            let jump := { mkInst anic.2 "JUMP_ABSOLUTE" with jumpTargetUid := some target.uid }
            let pfx1 := acc.pfx ++ cv.1 ++ anic.1 ++ [jump]
            let stripped := stripLines target.offset c.insts
            let pc := prologueWithCleanup pfx1 acc.cleanup (anic.2 + 1)
            if acc.remap ≠ [] ∧ ¬ 11 ≤ ver then .error .assertionViolation
            else
              let newCode := buildCode pc.2 opts (pc.1 ++ finalOriginals acc.remap stripped)
              let meta : ResumeFunctionMetadata := ⟨c, metaInsts, remapKeysFinal, none⟩
              .ok (newCode,
                ⟨pc.2 + 1, st.cache, dinsert st.metadata newCode.uid meta⟩)

/-! ## Lineage redirection (`generate_based_on_original_code_object`) -/

/-- `find_new_offset` (lines 475-489): locate the unique instruction at the
requested offset, pair the generated stream with the root snapshot from
their ends inward, and read off the root-coordinate offset. -/
def findNewOffset (instructions metaInsts : List Instruction) (offset : Nat) : Except Err Nat :=
  match instructions.filter (fun i => i.offset == some offset) with
  | [target] =>
    match (instructions.reverse.zip metaInsts.reverse).filter (fun p => p.1.uid == target.uid) with
    | [(i1, i2)] =>
      if i1.opname == i2.opname then
        match i2.offset with
        | some o => .ok o
        | none => .error .structuralInconsistency
      else .error .structuralInconsistency
    | _ => .error .structuralInconsistency
  | _ => .error .structuralInconsistency

/-- `_filter_iter` (lines 228-244): two-pointer conditional filter.  On a
failed condition the current second-list element is kept for the next
first-list value; it only advances on a match. -/
def filterIter {α β : Type} (cond : α → β → Bool) : List α → List β → List α
  | _, [] => []
  | [], _ => []
  | a :: l1, b :: l2 =>
    if cond a b then a :: filterIter cond l1 l2 else filterIter cond l1 (b :: l2)

/-- The scan of lines 507-514 collecting the first `n` prefix
`PUSH_EXC_INFO` instructions (stopping once `n` are found). -/
def takePushExc (n : Nat) : List Instruction → List Instruction
  | [] => []
  | i :: rest =>
    if n = 0 then []
    else if i.opname == "PUSH_EXC_INFO" then i :: takePushExc (n - 1) rest
    else takePushExc n rest

def insertNat (a : Nat) : List Nat → List Nat
  | [] => [a]
  | b :: l => if a ≤ b then a :: b :: l else b :: insertNat a l

def sortNats : List Nat → List Nat
  | [] => []
  | a :: l => insertNat a (sortNats l)

/-- `remap_block_offsets` (lines 499-539): match prefix guard entries, in
order, against the recorded original target offsets, then pair any
remaining requested targets through end-anchored zipping. -/
def remapBlockOffsets (instructions metaInsts : List Instruction) (remapKeys : List Nat)
    (setupOffs : List Nat) : List (Nat × Nat) :=
  let pbs := takePushExc remapKeys.length instructions
  let m1 := (pbs.zip remapKeys).foldl (fun d p => dinsert d (p.1.offset.getD 0) p.2) []
  let oldStart : Int := match pbs.getLast? with
    | some i => Int.ofNat (i.offset.getD 0)
    | none => -1
  let oldInstOffsets := sortNats (setupOffs.filter (fun n => oldStart < Int.ofNat n))
  let targets := filterIter (fun (inst : Instruction) (o : Nat) => inst.offset == some o)
    instructions oldInstOffsets
  let pairs := instructions.reverse.zip metaInsts.reverse
  let newTargets := filterIter (fun (p : Instruction × Instruction) (t : Instruction) =>
    p.1.uid == t.uid) pairs targets
  (newTargets.zip targets).foldl
    (fun d q => dinsert d (q.2.offset.getD 0) (q.1.2.offset.getD 0)) m1

/-- Line 544-546: translate every requested resource-target offset; a
missing entry is the commented "it is an error" case. -/
def translateAll (remap : List (Nat × Nat)) : List Nat → Except Err (List Nat)
  | [] => .ok []
  | n :: rest =>
    match dget remap n with
    | none => .error .structuralInconsistency
    | some v =>
      match translateAll remap rest with
      | .error e => .error e
      | .ok l => .ok (v :: l)

/-- The key translation performed by
`generate_based_on_original_code_object` before it re-enters `lookup`:
root-coordinate offset plus, on 3.11+, translated resource-target offsets;
the computed remap table is memoized into the metadata (an empty table,
being falsy, is recomputed). -/
def translateRequest (ver : Nat) (st : CacheState) (c : CodeUnit)
    (m : ResumeFunctionMetadata) (k : ResumeKey) : Except Err (ResumeKey × CacheState) :=
  match findNewOffset c.insts m.instructions k.offset with
  | .error e => .error e
  | .ok newOff =>
    if 11 ≤ ver then
      let cached := match m.blockTargetOffsetRemap with
        | some r => if r.isEmpty then none else some r
        | none => none
      let rs := match cached with
        | some r => (r, st)
        | none =>
          let r := remapBlockOffsets c.insts m.instructions m.prefixBlockTargetOffsetRemap
            k.setup_fn_target_offsets
          (r, metaSet st c.uid { m with blockTargetOffsetRemap := some r })
      match translateAll rs.1 k.setup_fn_target_offsets with
      | .error e => .error e
      | .ok offs' => .ok ({ k with offset := newOff, setup_fn_target_offsets := offs' }, rs.2)
    else .ok ({ k with offset := newOff }, st)

/-! ## The memoizing entry points -/

/-- `ContinueExecutionCache.generate` (lines 268-302): validate the flags,
then either redirect through the unit's lineage metadata or synthesize from
the root.  The third component counts redirection hops.  `lookupFn` stands
for the recursive call back into `ContinueExecutionCache.lookup`. -/
def generateFn (ver : Nat)
    (lookupFn : CacheState → CodeUnit → Nat → ResumeKey → Except Err (CodeUnit × CacheState × Nat))
    (st : CacheState) (c : CodeUnit) (lineno : Nat) (k : ResumeKey) :
    Except Err (CodeUnit × CacheState × Nat) :=
  if c.flags &&& genLikeMask ≠ 0 then .error .unsupportedUnitKind
  else if c.flags &&& CO_OPTIMIZED = 0 then .error .unsupportedUnitKind
  else
    match metaGet st c.uid with
    | some m =>
      match translateRequest ver st c m k with
      | .error e => .error e
      | .ok ks =>
        match lookupFn ks.2 m.code lineno ks.1 with
        | .error e => .error e
        | .ok r => .ok (r.1, r.2.1, r.2.2 + 1)
    | none =>
      match generateRoot ver st c lineno k with
      | .error e => .error e
      | .ok r => .ok (r.1, r.2, 0)

/-- `ContinueExecutionCache.lookup` (lines 259-266) with explicit recursion
fuel: consult `cache[code][key]` (the line is *not* part of the key), on a
miss run `generate` and memoize its result. -/
def lookupAux (ver : Nat) :
    Nat → CacheState → CodeUnit → Nat → ResumeKey → Except Err (CodeUnit × CacheState × Nat)
  | 0, _, _, _, _ => .error .fuelOut
  | fuel + 1, st, c, lineno, k =>
    match cacheGet st c.uid k with
    | some u => .ok (u, st, 0)
    | none =>
      match generateFn ver (lookupAux ver fuel) st c lineno k with
      | .error e => .error e
      | .ok r => .ok (r.1, cacheSet r.2.1 c.uid k r.1, r.2.2)

/-- The public entry point; fuel 2 always suffices, by the rootedness
theorem below. -/
def lookup (ver : Nat) (st : CacheState) (c : CodeUnit) (lineno : Nat) (k : ResumeKey) :
    Except Err (CodeUnit × CacheState × Nat) :=
  lookupAux ver 2 st c lineno k

/-! ## Basic lemmas about the dict model and the cache -/

theorem dget_mem {α β : Type} [DecidableEq α] {l : List (α × β)} {k : α} {v : β}
    (h : dget l k = some v) : (k, v) ∈ l := by
  induction l with
  | nil => simp [dget] at h
  | cons p rest ih =>
    rcases p with ⟨a, b⟩
    by_cases ha : a = k
    · subst ha
      simp [dget] at h
      subst h
      exact List.mem_cons_self _ _
    · simp [dget, ha] at h
      exact List.mem_cons_of_mem _ (ih h)

theorem dget_replaceMap_self {α β : Type} [DecidableEq α] (l : List (α × β)) (k : α) (v : β)
    (h : (dget l k).isSome) :
    dget (l.map (fun p => if p.1 = k then (k, v) else p)) k = some v := by
  induction l with
  | nil => simp [dget] at h
  | cons p rest ih =>
    rcases p with ⟨a, b⟩
    simp only [List.map_cons]
    by_cases ha : a = k
    · rw [show (if ((a, b) : α × β).1 = k then (k, v) else (a, b)) = (k, v) from if_pos ha]
      simp [dget]
    · rw [show (if ((a, b) : α × β).1 = k then (k, v) else (a, b)) = (a, b) from if_neg ha]
      simp only [dget, ha, if_false] at h ⊢
      exact ih h

theorem dget_replaceMap_ne {α β : Type} [DecidableEq α] (l : List (α × β)) (k k' : α) (v : β)
    (h : k' ≠ k) :
    dget (l.map (fun p => if p.1 = k then (k, v) else p)) k' = dget l k' := by
  induction l with
  | nil => simp [dget]
  | cons p rest ih =>
    rcases p with ⟨a, b⟩
    simp only [List.map_cons]
    by_cases ha : a = k
    · rw [show (if ((a, b) : α × β).1 = k then (k, v) else (a, b)) = (k, v) from if_pos ha]
      simp only [dget, if_neg (Ne.symm h),
        if_neg (fun hh : a = k' => h (hh.symm.trans ha))]
      exact ih
    · rw [show (if ((a, b) : α × β).1 = k then (k, v) else (a, b)) = (a, b) from if_neg ha]
      simp only [dget]
      by_cases hb : a = k' <;> simp [hb, ih]

theorem dget_appendOne_self {α β : Type} [DecidableEq α] (l : List (α × β)) (k : α) (v : β) :
    dget (l ++ [(k, v)]) k = some v ∨ (dget l k).isSome := by
  induction l with
  | nil => simp [dget]
  | cons p rest ih =>
    rcases p with ⟨a, b⟩
    by_cases ha : a = k
    · right
      simp [dget, ha]
    · simpa [dget, ha] using ih

theorem dget_appendOne_ne {α β : Type} [DecidableEq α] (l : List (α × β)) (k k' : α) (v : β)
    (h : k' ≠ k) : dget (l ++ [(k, v)]) k' = dget l k' := by
  induction l with
  | nil => simp [dget, Ne.symm h]
  | cons p rest ih =>
    rcases p with ⟨a, b⟩
    by_cases ha : a = k'
    · simp [dget, ha]
    · simpa [dget, ha] using ih

theorem dget_dinsert_self {α β : Type} [DecidableEq α] (l : List (α × β)) (k : α) (v : β) :
    dget (dinsert l k v) k = some v := by
  unfold dinsert
  by_cases hs : (dget l k).isSome
  · simpa [hs] using dget_replaceMap_self l k v hs
  · simp only [hs, if_false]
    rcases dget_appendOne_self l k v with h | h
    · exact h
    · exact absurd h hs

theorem dget_dinsert_ne {α β : Type} [DecidableEq α] (l : List (α × β)) (k k' : α) (v : β)
    (h : k' ≠ k) : dget (dinsert l k v) k' = dget l k' := by
  unfold dinsert
  by_cases hs : (dget l k).isSome
  · simpa [hs] using dget_replaceMap_ne l k k' v h
  · simpa [hs] using dget_appendOne_ne l k k' v h

theorem cacheGet_cacheSet_self (st : CacheState) (cuid : Nat) (k : ResumeKey) (u : CodeUnit) :
    cacheGet (cacheSet st cuid k u) cuid k = some u := by
  unfold cacheGet cacheSet
  simp only [dget_dinsert_self]

theorem cacheGet_cacheSet_ne (st : CacheState) (cuid cuid' : Nat) (k k' : ResumeKey)
    (u : CodeUnit) (h : cuid' ≠ cuid) :
    cacheGet (cacheSet st cuid k u) cuid' k' = cacheGet st cuid' k' := by
  unfold cacheGet cacheSet
  simp only [dget_dinsert_ne _ _ _ _ h]

theorem metaGet_metaSet_ne (st : CacheState) (cuid cuid' : Nat) (m : ResumeFunctionMetadata)
    (h : cuid' ≠ cuid) : metaGet (metaSet st cuid m) cuid' = metaGet st cuid' := by
  unfold metaGet metaSet
  exact dget_dinsert_ne _ _ _ _ h

theorem cacheGet_metaSet (st : CacheState) (cuid cuid' : Nat) (m : ResumeFunctionMetadata)
    (k : ResumeKey) : cacheGet (metaSet st cuid m) cuid' k = cacheGet st cuid' k := by
  unfold cacheGet metaSet
  rfl

/-! ## Concrete fixtures used by witnesses and counterexamples -/

/-- A small root code unit: optimized, three instructions with line
markers 1, 2, 3 at offsets 0, 2, 4. -/
def rootF : CodeUnit :=
  ⟨1, 1, "f", "f", 1, 0, 0, 0, ["x"], [], [],
    assemble
      [{ mkInst 11 "NOP" with startsLine := some 1 },
       { mkInst 12 "NOP" with startsLine := some 2 },
       { mkInst 13 "RETURN_VALUE" with startsLine := some 3 }]⟩

/-- The empty initial cache state; uids below 100 are taken by fixtures. -/
def st0 : CacheState := ⟨100, [], []⟩

/-- Resume key targeting offset 2 of `rootF`, no stack, no hooks. -/
def kA : ResumeKey := ⟨2, [], 0, [], [], [], [], [], []⟩

/-- A root code unit for the 3.11-era fixtures: an exception entry on the
instruction with uid 23 targets the handler instruction with uid 22 at
offset 2. -/
def rootG : CodeUnit :=
  ⟨2, 1, "g", "g", 1, 0, 0, 0, [], [], [],
    assemble
      [mkInst 21 "NOP",
       mkInst 22 "PUSH_EXC_INFO",
       withExn (mkInst 23 "NOP") ⟨21, 21, 22, 0, false⟩,
       mkInst 24 "RETURN_VALUE"]⟩

/-- One re-entry descriptor for stack slot 0 whose original handler target
offset is 2. -/
def kB : ResumeKey := ⟨0, [2], 1, [], [], [⟨0, none⟩], [], [], []⟩

/-- Two re-entry descriptors with the *same* stack index 0. -/
def kDup : ResumeKey := ⟨0, [0, 0], 1, [], [], [⟨0, none⟩, ⟨0, some ["7"]⟩], [], [], []⟩

/-- The prologue-shape key: nstack 2, live name `x`, nothing else. -/
def kP : ResumeKey := ⟨2, [], 2, ["x"], [], [], [], [], []⟩

/-! ## C8 — rejection of unsupported units -/

/-- C8: a generate request whose input unit is flagged generator-like
(generator, coroutine, iterable-coroutine or async-generator) or is not in
the optimized calling convention fails immediately with the
UnsupportedUnitKind fault (its result is the error, so no generated unit is
produced and nothing is memoized or retried). -/
theorem c8_unsupported_unit_rejected (ver fuel : Nat) (st : CacheState) (c : CodeUnit)
    (lineno : Nat) (k : ResumeKey)
    (h : c.flags &&& genLikeMask ≠ 0 ∨ c.flags &&& CO_OPTIMIZED = 0) :
    generateFn ver (lookupAux ver fuel) st c lineno k = .error .unsupportedUnitKind := by
  unfold generateFn
  rcases h with h | h
  · rw [if_pos h]
  · by_cases h2 : c.flags &&& genLikeMask ≠ 0
    · rw [if_pos h2]
    · rw [if_neg h2, if_pos h]

/-- A generator-flagged unit (CO_GENERATOR set, CO_OPTIMIZED clear). -/
def genFlagged : CodeUnit := ⟨3, CO_GENERATOR, "h", "h", 1, 0, 0, 0, [], [], [], []⟩

theorem c8_unsupported_unit_rejected_witness :
    ((genFlagged.flags &&& genLikeMask ≠ 0 ∨ genFlagged.flags &&& CO_OPTIMIZED = 0) ∧
      generateFn 11 (lookupAux 11 1) st0 genFlagged 5 kA = .error .unsupportedUnitKind) :=
  ⟨Or.inl (by decide),
    c8_unsupported_unit_rejected 11 1 st0 genFlagged 5 kA (Or.inl (by decide))⟩

/-! ## C2 — idempotence of `lookup` -/

/-- A successful lookup leaves its result memoized under (unit, key), and
any later lookup on that pair returns it unchanged with zero hops. -/
theorem lookupAux_memoizes (ver fuel : Nat) (st : CacheState) (c : CodeUnit) (lineno : Nat)
    (k : ResumeKey) (u : CodeUnit) (st' : CacheState) (hops : Nat)
    (h : lookupAux ver fuel st c lineno k = .ok (u, st', hops)) :
    cacheGet st' c.uid k = some u ∧
      ∀ fuel2, lookupAux ver (fuel2 + 1) st' c lineno k = .ok (u, st', 0) := by
  cases fuel with
  | zero => exact absurd h (by simp [lookupAux])
  | succ f =>
    have hcache : cacheGet st' c.uid k = some u := by
      unfold lookupAux at h
      cases hc : cacheGet st c.uid k with
      | some u0 =>
        rw [hc] at h
        injection h with h'
        obtain ⟨rfl, rfl, rfl⟩ : u0 = u ∧ st = st' ∧ 0 = hops := by
          refine ⟨congrArg Prod.fst h', ?_, ?_⟩
          · exact congrArg (fun p => p.2.1) h'
          · exact congrArg (fun p => p.2.2) h'
        exact hc
      | none =>
        rw [hc] at h
        cases hg : generateFn ver (lookupAux ver f) st c lineno k with
        | error e => rw [hg] at h; exact absurd h (by simp)
        | ok r =>
          rw [hg] at h
          rcases r with ⟨u1, st1, h1⟩
          injection h with h'
          have hu : u1 = u := congrArg Prod.fst h'
          have hst : cacheSet st1 c.uid k u1 = st' := congrArg (fun p => p.2.1) h'
          rw [← hst, hu]
          exact cacheGet_cacheSet_self st1 c.uid k u
    refine ⟨hcache, fun fuel2 => ?_⟩
    unfold lookupAux
    rw [hcache]

/-- C2: a successful lookup memoizes its result under (unit, key), so a
second lookup with the identical (unit, line, key) arguments returns the
identical (same-uid) generated unit without generating again (the state is
unchanged and zero redirection hops are made); hence at most one generated
unit exists per memo entry. -/
theorem c2_lookup_idempotent (ver fuel : Nat) (st : CacheState) (c : CodeUnit) (lineno : Nat)
    (k : ResumeKey) (u : CodeUnit) (st' : CacheState) (hops : Nat)
    (h : lookupAux ver fuel st c lineno k = .ok (u, st', hops)) :
    cacheGet st' c.uid k = some u ∧
      ∀ fuel2, lookupAux ver (fuel2 + 1) st' c lineno k = .ok (u, st', 0) :=
  lookupAux_memoizes ver fuel st c lineno k u st' hops h

/-- The generated unit, resulting state, and hop count of the fixture run
used by several witnesses. -/
def runA : CodeUnit × CacheState × Nat :=
  match lookupAux 10 2 st0 rootF 5 kA with
  | .ok r => r
  | .error _ => (rootF, st0, 0)

def genA : CodeUnit := runA.1

def stA : CacheState := runA.2.1

theorem c2_lookup_idempotent_witness :
    lookupAux 10 2 st0 rootF 5 kA = .ok (genA, stA, 0) ∧
      cacheGet stA rootF.uid kA = some genA ∧
      ∀ fuel2, lookupAux 10 (fuel2 + 1) stA rootF 5 kA = .ok (genA, stA, 0) := by
  have h : lookupAux 10 2 st0 rootF 5 kA = .ok (genA, stA, 0) := by rfl
  exact ⟨h, (c2_lookup_idempotent 10 2 st0 rootF 5 kA genA stA 0 h).1,
    (c2_lookup_idempotent 10 2 st0 rootF 5 kA genA stA 0 h).2⟩

/-! ## C3 — the memo table does not key on the line -/

theorem generateRoot_firstlineno (ver : Nat) (st : CacheState) (c : CodeUnit) (lineno : Nat)
    (k : ResumeKey) (u : CodeUnit) (st' : CacheState)
    (h : generateRoot ver st c lineno k = .ok (u, st')) : u.firstlineno = lineno := by
  simp only [generateRoot] at h
  repeat' split at h
  all_goals
    first
      | exact Except.noConfusion h
      | (injection h with h'
         have hu : _ = u := congrArg Prod.fst h'
         rw [← hu]
         rfl)

/-- C3 counterexample: two lookups on the same root with the same key but
different lines (5 then 7) return the *same* cached unit, whose declared
first line is 5, not the 7 supplied by the second request — the memo table
is keyed by (unit, key) only, `lineno` is not part of the key. -/
theorem c3_counterexample :
    lookup 10 st0 rootF 5 kA = .ok (genA, stA, 0) ∧
      lookup 10 stA rootF 7 kA = .ok (genA, stA, 0) ∧
      genA.firstlineno = 5 ∧ (5 : Nat) ≠ 7 :=
  ⟨rfl, rfl, rfl, by decide⟩

/-- C3 (amended): the memo table is keyed by (root unit identity, Resume
Key) only — the line is not part of the key.  A missed request on a
non-generated unit generates a unit whose declared first line equals the
requested line, and any later request with the same (unit, key) — whatever
line it supplies — returns that same unit unchanged. -/
theorem c3_memo_keyed_without_line (ver fuel : Nat) (st : CacheState) (c : CodeUnit)
    (l1 l2 : Nat) (k : ResumeKey) (u : CodeUnit) (st' : CacheState) (hops : Nat)
    (hroot : metaGet st c.uid = none)
    (hmiss : cacheGet st c.uid k = none)
    (hl : lookupAux ver fuel st c l1 k = .ok (u, st', hops)) :
    u.firstlineno = l1 ∧
      ∀ fuel2, lookupAux ver (fuel2 + 1) st' c l2 k = .ok (u, st', 0) := by
  have hsecond := (lookupAux_memoizes ver fuel st c l1 k u st' hops hl).1
  refine ⟨?_, fun fuel2 => ?_⟩
  · cases fuel with
    | zero => exact absurd hl (by simp [lookupAux])
    | succ f =>
      unfold lookupAux at hl
      rw [hmiss] at hl
      unfold generateFn at hl
      by_cases h1 : c.flags &&& genLikeMask ≠ 0
      · rw [if_pos h1] at hl
        exact Except.noConfusion hl
      · rw [if_neg h1] at hl
        by_cases h2 : c.flags &&& CO_OPTIMIZED = 0
        · rw [if_pos h2] at hl
          exact Except.noConfusion hl
        · rw [if_neg h2, hroot] at hl
          cases hg : generateRoot ver st c l1 k with
          | error e => rw [hg] at hl; exact Except.noConfusion hl
          | ok r =>
            rw [hg] at hl
            rcases r with ⟨u1, st1⟩
            injection hl with hl'
            have hu : u1 = u := congrArg Prod.fst hl'
            rw [← hu]
            exact generateRoot_firstlineno ver st c l1 k u1 st1 hg
  · unfold lookupAux
    rw [hsecond]

theorem c3_memo_keyed_without_line_witness :
    metaGet st0 rootF.uid = none ∧ cacheGet st0 rootF.uid kA = none ∧
      (genA.firstlineno = 5 ∧
        ∀ fuel2, lookupAux 10 (fuel2 + 1) stA rootF 9 kA = .ok (genA, stA, 0)) :=
  ⟨rfl, rfl, c3_memo_keyed_without_line 10 2 st0 rootF 5 9 kA genA stA 0 rfl rfl rfl⟩

/-! ## C9 / C7 — the template expander -/

theorem isDummyLoad_bumpDepth (si : Int) (i : Instruction) :
    isDummyLoad (bumpDepth si i) = isDummyLoad i := by
  unfold bumpDepth
  cases i.exn <;> rfl

theorem findIdx?_none_of_all {α : Type} (p : α → Bool) (l : List α)
    (h : ∀ i ∈ l, p i = false) : ∀ s, l.findIdx? p s = none := by
  induction l with
  | nil => intro s; rfl
  | cons a rest ih =>
    intro s
    have ha : p a = false := h a (List.mem_cons_self _ _)
    simp only [List.findIdx?, ha, cond_false]
    exact ih (fun i hi => h i (List.mem_cons_of_mem _ hi)) (s + 1)

theorem get?_lt_length {α : Type} {l : List α} {i : Nat} {a : α} (h : l.get? i = some a) :
    i < l.length := by
  by_contra hh
  push_neg at hh
  rw [List.get?_eq_none.2 hh] at h
  exact Option.noConfusion h

/-- Shared computation lemma: the successful shape of
`bytecodeFromTemplateWithSplit` when the placeholder load is located at
`di` and is followed by a discarding `POP_TOP`. -/
theorem bfts_ok_eq (tmpl : List Instruction) (si : Int) (ctr : Nat) (di : Nat)
    (dummyInst nxt : Instruction)
    (h1 : ((tmpl ++ [mkInst ctr "POP_TOP"]).map (bumpDepth si)).findIdx? isDummyLoad = some di)
    (h2 : ((tmpl ++ [mkInst ctr "POP_TOP"]).map (bumpDepth si)).get? di = some dummyInst)
    (h3 : ((tmpl ++ [mkInst ctr "POP_TOP"]).map (bumpDepth si)).get? (di + 1) = some nxt)
    (h4 : nxt.opname = "POP_TOP") :
    bytecodeFromTemplateWithSplit tmpl si ctr =
      .ok (((((tmpl ++ [mkInst ctr "POP_TOP"]).map (bumpDepth si)).set di
              (overwriteNop dummyInst)).set (di + 1) (overwriteNop nxt)).take (di + 1),
           ((((tmpl ++ [mkInst ctr "POP_TOP"]).map (bumpDepth si)).set di
              (overwriteNop dummyInst)).set (di + 1) (overwriteNop nxt)).drop (di + 1),
           ctr + 1) := by
  have h3' : (((tmpl ++ [mkInst ctr "POP_TOP"]).map (bumpDepth si)).set di
      (overwriteNop dummyInst)).get? (di + 1) =
      some nxt := by
    rw [List.get?_set_ne _ _ (by omega)]
    exact h3
  simp only [bytecodeFromTemplateWithSplit, h1, h2, h3']
  rw [if_pos (by simp [h4])]

/-- C9: the template expander locates the (single) placeholder-loading
instruction, verifies the immediately following instruction discards it,
replaces both with `NOP` markers and returns the split — everything up to
and including the first marker, and everything from the second marker on;
when the following instruction is not the discard it fails its assertion,
and for every template with no placeholder load at all it fails with
TemplateMarkerNotFound. -/
theorem c9_template_marker_contract (tmpl : List Instruction) (si : Int) (ctr : Nat)
    (di : Nat) (dummyInst nxt : Instruction)
    (h1 : ((tmpl ++ [mkInst ctr "POP_TOP"]).map (bumpDepth si)).findIdx? isDummyLoad = some di)
    (h2 : ((tmpl ++ [mkInst ctr "POP_TOP"]).map (bumpDepth si)).get? di = some dummyInst)
    (h3 : ((tmpl ++ [mkInst ctr "POP_TOP"]).map (bumpDepth si)).get? (di + 1) = some nxt)
    (h4 : nxt.opname = "POP_TOP") :
    (∃ S E, bytecodeFromTemplateWithSplit tmpl si ctr = .ok (S, E, ctr + 1) ∧
      S.length = di + 1 ∧
      S.get? di = some (overwriteNop dummyInst) ∧
      E.get? 0 = some (overwriteNop nxt) ∧
      (overwriteNop dummyInst).opname = "NOP" ∧
      (overwriteNop nxt).opname = "NOP" ∧
      S ++ E = ((((tmpl ++ [mkInst ctr "POP_TOP"]).map (bumpDepth si)).set di
          (overwriteNop dummyInst)).set (di + 1) (overwriteNop nxt))) ∧
    (∀ tmpl2 : List Instruction, ∀ si2 : Int, ∀ ctr2 : Nat,
      (∀ i ∈ tmpl2, isDummyLoad i = false) →
      bytecodeFromTemplateWithSplit tmpl2 si2 ctr2 = .error .templateMarkerNotFound) ∧
    (∀ tmpl3 : List Instruction, ∀ si3 : Int, ∀ ctr3 di3 : Nat, ∀ d3 n3 : Instruction,
      ((tmpl3 ++ [mkInst ctr3 "POP_TOP"]).map (bumpDepth si3)).findIdx? isDummyLoad = some di3 →
      ((tmpl3 ++ [mkInst ctr3 "POP_TOP"]).map (bumpDepth si3)).get? di3 = some d3 →
      ((tmpl3 ++ [mkInst ctr3 "POP_TOP"]).map (bumpDepth si3)).get? (di3 + 1) = some n3 →
      n3.opname ≠ "POP_TOP" →
      bytecodeFromTemplateWithSplit tmpl3 si3 ctr3 = .error .assertionViolation) := by
  have hlen : di + 1 < tmpl.length + 1 := by
    have := get?_lt_length h3
    simpa using this
  refine ⟨⟨_, _, bfts_ok_eq tmpl si ctr di dummyInst nxt h1 h2 h3 h4, ?_, ?_, ?_, rfl, rfl,
      List.take_append_drop _ _⟩, ?_, ?_⟩
  · simp only [List.length_take, List.length_set, List.length_map, List.length_append,
      List.length_singleton]
    omega
  · rw [List.get?_take (by omega)]
    rw [List.get?_set_ne _ _ (by omega), List.get?_set_eq_of_lt _ (by exact get?_lt_length h2)]
  · rw [List.get?_drop]
    rw [List.get?_set_eq_of_lt _ (by rw [List.length_set]; exact get?_lt_length h3)]
  · intro tmpl2 si2 ctr2 hno
    have : ∀ i ∈ (tmpl2 ++ [mkInst ctr2 "POP_TOP"]).map (bumpDepth si2),
        isDummyLoad i = false := by
      intro i hi
      rcases List.mem_map.1 hi with ⟨j, hj, rfl⟩
      rw [isDummyLoad_bumpDepth]
      rcases List.mem_append.1 hj with hj | hj
      · exact hno j hj
      · rcases List.mem_singleton.1 hj with rfl
        rfl
    simp only [bytecodeFromTemplateWithSplit, findIdx?_none_of_all _ _ this 0]
  · intro tmpl3 si3 ctr3 di3 d3 n3 g1 g2 g3 g4
    have g3' : (((tmpl3 ++ [mkInst ctr3 "POP_TOP"]).map (bumpDepth si3)).set di3
        (overwriteNop d3)).get? (di3 + 1) = some n3 := by
      rw [List.get?_set_ne _ _ (by omega)]
      exact g3
    simp only [bytecodeFromTemplateWithSplit, g1, g2, g3']
    rw [if_neg (by simp [g4])]

/-- A minimal compiled template: the placeholder load followed by its
discarding `POP_TOP`. -/
def tmplW : List Instruction := [mkInstV 50 "LOAD_FAST" "dummy", mkInst 51 "POP_TOP"]

theorem c9_template_marker_contract_witness :
    ((tmplW ++ [mkInst 90 "POP_TOP"]).map (bumpDepth 1)).findIdx? isDummyLoad = some 0 ∧
      (∃ S E, bytecodeFromTemplateWithSplit tmplW 1 90 = .ok (S, E, 91) ∧
        S.length = 0 + 1 ∧
        S.get? 0 = some (overwriteNop (mkInstV 50 "LOAD_FAST" "dummy")) ∧
        E.get? 0 = some (overwriteNop (mkInst 51 "POP_TOP")) ∧
        (overwriteNop (mkInstV 50 "LOAD_FAST" "dummy")).opname = "NOP" ∧
        (overwriteNop (mkInst 51 "POP_TOP")).opname = "NOP" ∧
        S ++ E = ((((tmplW ++ [mkInst 90 "POP_TOP"]).map (bumpDepth 1)).set 0
            (overwriteNop (mkInstV 50 "LOAD_FAST" "dummy"))).set (0 + 1)
            (overwriteNop (mkInst 51 "POP_TOP")))) :=
  ⟨rfl, (c9_template_marker_contract tmplW 1 90 0 (mkInstV 50 "LOAD_FAST" "dummy")
    (mkInst 51 "POP_TOP") rfl rfl rfl rfl).1⟩

/-- A compiled snippet carrying an exception region that covers only the
instruction *before* the placeholder: the region (uids 50-50, depth 5)
ends strictly before the split point at index 1. -/
def c7tmpl : List Instruction :=
  [withExn (mkInst 50 "NOP") ⟨50, 50, 52, 5, false⟩,
   mkInstV 51 "LOAD_FAST" "dummy",
   mkInst 52 "POP_TOP"]

/-- C7 counterexample: splitting `c7tmpl` at stack depth 2 increases the
recorded depth of the region that does **not** cross the split (it covers
only index 0, while the split markers sit at indices 1 and 2) from 5 to 7;
the claim says such a region keeps its depth unchanged. -/
theorem c7_counterexample :
    c7tmpl.findIdx? isDummyLoad = some 1 ∧
      (c7tmpl.get? 0).map (fun i => i.exn) = some (some ⟨50, 50, 52, 5, false⟩) ∧
      bytecodeFromTemplateWithSplit c7tmpl 2 90 =
        .ok ([withExn (mkInst 50 "NOP") ⟨50, 50, 52, 7, false⟩,
              overwriteNop (mkInstV 51 "LOAD_FAST" "dummy")],
             [overwriteNop (mkInst 52 "POP_TOP"), mkInst 90 "POP_TOP"], 91) ∧
      (7 : Int) ≠ 5 :=
  ⟨rfl, rfl, rfl, by decide⟩

/-- C7 (amended): when the expander splits a compiled snippet at the
placeholder, **every** exception region of the snippet — whether or not its
range crosses the split point — has its recorded entry stack depth
increased by the caller-supplied stack index: every non-marker position of
the split equals the input instruction with its region depth bumped. -/
theorem c7_all_region_depths_bumped (tmpl : List Instruction) (si : Int) (ctr : Nat)
    (di : Nat) (dummyInst nxt : Instruction)
    (h1 : ((tmpl ++ [mkInst ctr "POP_TOP"]).map (bumpDepth si)).findIdx? isDummyLoad = some di)
    (h2 : ((tmpl ++ [mkInst ctr "POP_TOP"]).map (bumpDepth si)).get? di = some dummyInst)
    (h3 : ((tmpl ++ [mkInst ctr "POP_TOP"]).map (bumpDepth si)).get? (di + 1) = some nxt)
    (h4 : nxt.opname = "POP_TOP") :
    ∃ S E, bytecodeFromTemplateWithSplit tmpl si ctr = .ok (S, E, ctr + 1) ∧
      ∀ j, j ≠ di → j ≠ di + 1 →
        (S ++ E).get? j = ((tmpl ++ [mkInst ctr "POP_TOP"]).get? j).map (bumpDepth si) := by
  refine ⟨_, _, bfts_ok_eq tmpl si ctr di dummyInst nxt h1 h2 h3 h4, ?_⟩
  intro j hj1 hj2
  rw [List.take_append_drop]
  rw [List.get?_set_ne _ _ (fun hh => hj2 hh.symm), List.get?_set_ne _ _ (fun hh => hj1 hh.symm)]
  exact List.get?_map _ _ _

theorem c7_all_region_depths_bumped_witness :
    ((c7tmpl ++ [mkInst 90 "POP_TOP"]).map (bumpDepth 2)).findIdx? isDummyLoad = some 1 ∧
      (∃ S E, bytecodeFromTemplateWithSplit c7tmpl 2 90 = .ok (S, E, 91) ∧
        ∀ j, j ≠ 1 → j ≠ 1 + 1 →
          (S ++ E).get? j = ((c7tmpl ++ [mkInst 90 "POP_TOP"]).get? j).map (bumpDepth 2)) :=
  ⟨rfl, c7_all_region_depths_bumped c7tmpl 2 90 1
    (bumpDepth 2 (mkInstV 51 "LOAD_FAST" "dummy")) (bumpDepth 2 (mkInst 52 "POP_TOP"))
    rfl rfl rfl rfl⟩

/-! ## C6 — prologue shape -/

/-- The stack-rehydration loads emitted when no re-entry hooks, no context
variables and no null indices are present. -/
def loads : List Nat → Nat → List Instruction
  | [], _ => []
  | i :: r, ctr => mkInstV ctr "LOAD_FAST" (stackName i) :: loads r (ctr + 1)

theorem stackLoop_noHooks (ver : Nat) (o2i : List (Nat × Instruction)) (is : List Nat)
    (pfx cl : List Instruction) (ht : List (Int × Nat)) (rk : List Nat)
    (rm : List (Nat × Nat)) (ni ctr : Nat) :
    stackLoop ver o2i [] is ⟨pfx, cl, [], ht, rk, rm, [], ni, ctr⟩ =
      .ok ⟨pfx ++ loads is ctr, cl, [], ht, rk, rm, [], ni, ctr + is.length⟩ := by
  induction is generalizing pfx ctr with
  | nil => simp [stackLoop, loads]
  | cons i r ih =>
    simp only [stackLoop, stackLoopStep, emitNulls, dget, loads]
    rw [ih]
    simp [List.append_assoc, Nat.add_assoc, Nat.add_comm 1 r.length]

theorem assembleFrom_append (n : Nat) (xs ys : List Instruction) :
    assembleFrom n (xs ++ ys) = assembleFrom n xs ++ assembleFrom (n + xs.length) ys := by
  induction xs generalizing n with
  | nil => simp [assembleFrom]
  | cons a l ih =>
    simp only [List.cons_append, assembleFrom, List.append_eq, ih, List.length_cons]
    rw [show n + (l.length + 1) = n + 1 + l.length by omega]

theorem assembleFrom_opname (n : Nat) (l : List Instruction) :
    (assembleFrom n l).map (fun i => i.opname) = l.map (fun i => i.opname) := by
  induction l generalizing n with
  | nil => rfl
  | cons a r ih => simp [assembleFrom, ih]

/-- Assembling a stream of the shape `frame-setup ++ [load, load] ++ [jump]
++ originals` only adds offsets: the decomposition and the per-instruction
fields survive. -/
theorem assemble_shape (a b : List Instruction) (x y z : Instruction) :
    ∃ fs l0 l1 j rest,
      assembleFrom 0 (((a ++ [x, y]) ++ [z]) ++ b) = fs ++ [l0, l1, j] ++ rest ∧
        l0.opname = x.opname ∧ l0.argval = x.argval ∧
        l1.opname = y.opname ∧ l1.argval = y.argval ∧
        j.opname = z.opname ∧ j.jumpTargetUid = z.jumpTargetUid ∧
        fs = assembleFrom 0 a := by
  refine ⟨assembleFrom 0 a,
    { x with offset := some (2 * (0 + a.length)) },
    { y with offset := some (2 * (0 + a.length + 1)) },
    { z with offset := some (2 * (0 + (a ++ [x, y]).length)) },
    assembleFrom (0 + (a ++ [x, y, z]).length) b,
    ?_, rfl, rfl, rfl, rfl, rfl, rfl, rfl⟩
  rw [assembleFrom_append, assembleFrom_append, assembleFrom_append]
  simp only [assembleFrom, List.append_assoc, List.cons_append, List.nil_append,
    List.append_nil]

/-- The goal-shaped corollary of `assemble_shape` for the prologue-shape
claim: the assembled body decomposes into the frame setup, the two stack
loads, the jump to the requested target, and the tail. -/
theorem c6_decomp (b : List Instruction) (x y z tgt : Instruction)
    (found : Option Instruction) (ver : Nat) (fv : List String) (n0 : Nat)
    (hx1 : x.opname = "LOAD_FAST") (hx2 : x.argval = some "___stack0")
    (hy1 : y.opname = "LOAD_FAST") (hy2 : y.argval = some "___stack1")
    (hz1 : z.opname = "JUMP_ABSOLUTE") (hz2 : z.jumpTargetUid = some tgt.uid)
    (hfind : found = some tgt) :
    ∃ fs l0 l1 j rest,
      assembleFrom 0 ((((frameSetup ver fv n0).1 ++ [x, y]) ++ [z]) ++ b) =
          fs ++ [l0, l1, j] ++ rest ∧
        l0.opname = "LOAD_FAST" ∧ l0.argval = some "___stack0" ∧
        l1.opname = "LOAD_FAST" ∧ l1.argval = some "___stack1" ∧
        j.opname = "JUMP_ABSOLUTE" ∧
        (∃ t, found = some t ∧ j.jumpTargetUid = some t.uid) ∧
        (¬ 11 ≤ ver → fs = []) ∧
        (11 ≤ ver → fs.map (fun i => i.opname) = ["RESUME"] ∨
          fs.map (fun i => i.opname) = ["COPY_FREE_VARS", "RESUME"]) := by
  obtain ⟨fs, l0, l1, j, rest, heq, ho1, ha1, ho2, ha2, ho3, hj3, hfs⟩ :=
    assemble_shape ((frameSetup ver fv n0).1) b x y z
  refine ⟨fs, l0, l1, j, rest, heq, ho1.trans hx1, ha1.trans hx2, ho2.trans hy1,
    ha2.trans hy2, ho3.trans hz1, ⟨tgt, hfind, hj3.trans hz2⟩, ?_, ?_⟩
  · intro hv
    rw [hfs]
    simp [frameSetup, hv, assembleFrom]
  · intro hv
    rw [hfs, assembleFrom_opname]
    by_cases hfv : fv = []
    · left
      simp [frameSetup, hv, hfv, mkInstA]
    · right
      simp [frameSetup, hv, hfv, mkInstA]

/-- The fixture run of the prologue-shape key on a 3.11-era host. -/
def runP11 : CodeUnit × CacheState :=
  match generateRoot 11 st0 rootF 5 kP with
  | .ok r => r
  | .error _ => (rootF, st0)

def genP11 : CodeUnit := runP11.1

/-- C6 counterexample: on a frame-setup era (3.11+) the synthesized body
does *not* begin with the stack loads — its first instruction is the
`RESUME` frame-setup marker, so the claimed "loads followed immediately by
the jump" shape fails at the very first instruction. -/
theorem c6_counterexample :
    generateRoot 11 st0 rootF 5 kP = .ok (genP11, runP11.2) ∧
      genP11.insts.head?.map (fun i => i.opname) = some "RESUME" ∧
      "RESUME" ≠ "LOAD_FAST" :=
  ⟨rfl, rfl, by decide⟩

/-- C6 (amended): for a root-case request with nstack = 2, live names
`("x",)` and no re-entries, rebuilds, or unbound slots, the parameter list
is exactly `___stack0, ___stack1, x` in that order, and the body — after
the era's frame-setup marker (a `RESUME`, preceded by a free-variable
materialization when free variables exist; absent before 3.11) — begins
with the two stack loads followed immediately by an unconditional jump to
the instruction at the requested offset. -/
theorem c6_prologue_shape (ver : Nat) (st : CacheState) (c : CodeUnit) (lineno : Nat)
    (k : ResumeKey) (u : CodeUnit) (st' : CacheState)
    (hn : k.nstack = 2) (ha : k.argnames = ["x"]) (hsf : k.setup_fns = [])
    (hscv : k.stack_ctx_vars = []) (hacv : k.argnames_ctx_vars = [])
    (hnull : k.argnames_null = []) (hni : k.null_idxes = [])
    (hgen : generateRoot ver st c lineno k = .ok (u, st')) :
    u.argcount = 3 ∧
      u.varnames.take 3 = ["___stack0", "___stack1", "x"] ∧
      (∃ fs l0 l1 j rest,
        u.insts = fs ++ [l0, l1, j] ++ rest ∧
        l0.opname = "LOAD_FAST" ∧ l0.argval = some "___stack0" ∧
        l1.opname = "LOAD_FAST" ∧ l1.argval = some "___stack1" ∧
        j.opname = "JUMP_ABSOLUTE" ∧
        (∃ t, c.insts.find? (fun i => i.offset == some k.offset) = some t ∧
          j.jumpTargetUid = some t.uid) ∧
        (¬ 11 ≤ ver → fs = []) ∧
        (11 ≤ ver → fs.map (fun i => i.opname) = ["RESUME"] ∨
          fs.map (fun i => i.opname) = ["COPY_FREE_VARS", "RESUME"])) := by
  obtain ⟨koff, ksfo, knstack, kan, knull2, ksf2, kscv2, kacv2, kni2⟩ := k
  dsimp only at hn ha hsf hscv hacv hnull hni
  subst hn ha hsf hscv hacv hnull hni
  have hargs : argsOf 2 ["x"] = ["___stack0", "___stack1", "x"] := by decide
  simp only [generateRoot] at hgen
  cases hfind : List.find? (fun i => i.offset == some koff) c.insts with
  | none =>
    rw [hfind] at hgen
    exact Except.noConfusion hgen
  | some target =>
    rw [hfind] at hgen
    have hbt : buildHookTargets [] ksfo = .ok [] := by
      simp [buildHookTargets]
    rw [hbt] at hgen
    simp only [buildHooks, List.foldl_nil] at hgen
    rw [show List.range 2 = [0, 1] from rfl,
      stackLoop_noHooks ver (offsetToInst c.insts) [0, 1]] at hgen
    simp only [ctxVarsInsts, argnamesNullInsts] at hgen
    simp only [loads, List.length_cons, List.length_nil] at hgen
    rw [if_neg (by simp)] at hgen
    rw [if_neg (by simp)] at hgen
    rw [prologueWithCleanup_nil, finalOriginals_nil] at hgen
    injection hgen with hgen'
    have hu : _ = u := congrArg Prod.fst hgen'
    subst hu
    refine ⟨?_, ?_, ?_⟩
    · show (argsOf 2 ["x"]).length = 3
      rw [hargs]
      rfl
    · show ((argsOf 2 ["x"] ++ []) ++
          List.filter (fun v => decide (v ∉ argsOf 2 ["x"])) c.varnames).take 3 =
        ["___stack0", "___stack1", "x"]
      rw [List.append_nil, hargs,
        show (3 : Nat) = (["___stack0", "___stack1", "x"] : List String).length from rfl]
      exact List.take_left _ _
    · dsimp only [buildCode, assemble]
      simp only [List.append_nil]
      refine c6_decomp _ _ _ _ target _ ver _ st.nextId ?_ ?_ ?_ ?_ ?_ ?_ rfl
      · rfl
      · show some (stackName 0) = some "___stack0"
        decide
      · rfl
      · show some (stackName 1) = some "___stack1"
        decide
      · rfl
      · rfl

/-- The prologue-shape fixture run on a pre-3.11 era. -/
def runP10 : CodeUnit × CacheState :=
  match generateRoot 10 st0 rootF 5 kP with
  | .ok r => r
  | .error _ => (rootF, st0)

theorem c6_prologue_shape_witness :
    kP.nstack = 2 ∧ generateRoot 10 st0 rootF 5 kP = .ok (runP10.1, runP10.2) ∧
      (runP10.1.argcount = 3 ∧
        runP10.1.varnames.take 3 = ["___stack0", "___stack1", "x"] ∧
        (∃ fs l0 l1 j rest,
          runP10.1.insts = fs ++ [l0, l1, j] ++ rest ∧
          l0.opname = "LOAD_FAST" ∧ l0.argval = some "___stack0" ∧
          l1.opname = "LOAD_FAST" ∧ l1.argval = some "___stack1" ∧
          j.opname = "JUMP_ABSOLUTE" ∧
          (∃ t, rootF.insts.find? (fun i => i.offset == some kP.offset) = some t ∧
            j.jumpTargetUid = some t.uid) ∧
          (¬ 11 ≤ 10 → fs = []) ∧
          (11 ≤ 10 → fs.map (fun i => i.opname) = ["RESUME"] ∨
            fs.map (fun i => i.opname) = ["COPY_FREE_VARS", "RESUME"]))) :=
  ⟨rfl, rfl,
    c6_prologue_shape 10 st0 rootF 5 kP runP10.1 runP10.2 rfl rfl rfl rfl rfl rfl rfl rfl⟩

/-! ## C10 — re-entry descriptor stack indices -/

theorem dget_dpop_ne {α β : Type} [DecidableEq α] (l : List (α × β)) (k x : α) (h : x ≠ k) :
    dget (dpop l k) x = dget l x := by
  induction l with
  | nil => rfl
  | cons p rest ih =>
    rcases p with ⟨a, b⟩
    by_cases ha : a = k
    · subst ha
      simp only [dpop, List.filter]
      rw [show (decide (a ≠ a)) = false by simp]
      simp only [dget, if_neg (fun hh : a = x => h (hh.symm))]
      simpa [dpop] using ih
    · simp only [dpop, List.filter]
      rw [show (decide (a ≠ k)) = true by simp [ha]]
      simp only [dget]
      by_cases hx : a = x
      · simp [hx]
      · simp only [if_neg hx]
        simpa [dpop] using ih

theorem dmem_dpop_ne {α β : Type} [DecidableEq α] (l : List (α × β)) (k x : α) (h : x ≠ k) :
    dmem (dpop l k) x = dmem l x := by
  simp [dmem, dget_dpop_ne l k x h]

theorem dmem_dinsert_self {α β : Type} [DecidableEq α] (l : List (α × β)) (k : α) (v : β) :
    dmem (dinsert l k v) k = true := by
  simp [dmem, dget_dinsert_self]

theorem dmem_dinsert_mono {α β : Type} [DecidableEq α] (l : List (α × β)) (k x : α) (v : β)
    (h : dmem l x = true) : dmem (dinsert l k v) x = true := by
  by_cases hx : x = k
  · subst hx
    exact dmem_dinsert_self l x v
  · rw [dmem, dget_dinsert_ne l k x v hx]
    exact h

theorem dmem_foldl_hooks (fns : List ReenterWith) (d : List (Int × ReenterWith)) (x : Int)
    (h : dmem d x = true) :
    dmem (fns.foldl (fun d fn => dinsert d fn.stack_index fn) d) x = true := by
  induction fns generalizing d with
  | nil => exact h
  | cons g rest ih => exact ih _ (dmem_dinsert_mono _ _ _ _ h)

theorem mem_foldl_hooks_self :
    ∀ (fns : List ReenterWith) (d : List (Int × ReenterWith)) (fn : ReenterWith), fn ∈ fns →
      dmem (fns.foldl (fun d fn => dinsert d fn.stack_index fn) d) fn.stack_index = true := by
  intro fns
  induction fns with
  | nil => intro d fn h; cases h
  | cons g rest ih =>
    intro d fn h
    rcases List.mem_cons.1 h with rfl | h2
    · exact dmem_foldl_hooks rest _ _ (dmem_dinsert_self d fn.stack_index fn)
    · exact ih _ fn h2

theorem mem_buildHooks (fns : List ReenterWith) (fn : ReenterWith) (h : fn ∈ fns) :
    dmem (buildHooks fns) fn.stack_index = true :=
  mem_foldl_hooks_self fns [] fn h

theorem processHook_hooks (ver : Nat) (o2i : List (Nat × Instruction)) (hook : ReenterWith)
    (i : Nat) (acc acc2 : LoopAcc) (h : processHook ver o2i hook i acc = .ok acc2) :
    acc2.hooks = dpop acc.hooks (Int.ofNat i) := by
  simp only [processHook] at h
  repeat' split at h
  all_goals
    first
      | exact Except.noConfusion h
      | (injection h with h'
         rw [← h'])

theorem stackLoopStep_hooks (ver : Nat) (o2i : List (Nat × Instruction))
    (scv : List (Nat × List String)) (acc : LoopAcc) (i : Nat) (acc2 : LoopAcc)
    (h : stackLoopStep ver o2i scv acc i = .ok acc2) :
    acc2.hooks = acc.hooks ∨ acc2.hooks = dpop acc.hooks (Int.ofNat i) := by
  simp only [stackLoopStep] at h
  split at h
  · exact Except.noConfusion h
  · rename_i accH heq2
    have hacc : accH.hooks = acc.hooks ∨ accH.hooks = dpop acc.hooks (Int.ofNat i) := by
      split at heq2
      · injection heq2 with h2
        left
        rw [← h2]
      · rename_i hook hdget
        right
        have hp := processHook_hooks ver o2i hook i _ accH heq2
        exact hp
    have hacc2 : acc2.hooks = accH.hooks := by
      split at h
      · injection h with h2
        rw [← h2]
      · injection h with h2
        rw [← h2]
    rw [hacc2]
    exact hacc

theorem stackLoop_hooks (ver : Nat) (o2i : List (Nat × Instruction))
    (scv : List (Nat × List String)) :
    ∀ (is : List Nat) (acc acc' : LoopAcc),
      stackLoop ver o2i scv is acc = .ok acc' →
      ∀ x, dmem acc.hooks x = true →
        dmem acc'.hooks x = true ∨ x ∈ is.map Int.ofNat := by
  intro is
  induction is with
  | nil =>
    intro acc acc' h x hx
    left
    unfold stackLoop at h
    injection h with h'
    rw [← h']
    exact hx
  | cons i rest ih =>
    intro acc acc' h x hx
    unfold stackLoop at h
    split at h
    · exact Except.noConfusion h
    · rename_i accm hstep
      rcases stackLoopStep_hooks ver o2i scv acc i accm hstep with hk | hk
      · rcases ih accm acc' h x (by rw [hk]; exact hx) with h1 | h1
        · exact Or.inl h1
        · exact Or.inr (by simp [h1])
      · by_cases hxi : x = Int.ofNat i
        · exact Or.inr (by simp [hxi])
        · rcases ih accm acc' h x (by rw [hk, dmem_dpop_ne _ _ _ hxi]; exact hx) with h1 | h1
          · exact Or.inl h1
          · exact Or.inr (by simp [h1])

/-- C10 (amended): a root-case generate request succeeds only if every
supplied re-entry descriptor's stack index lies in 0 .. nstack − 1 — an
out-of-range index is never consumed by the stack-rehydration loop and the
final assertion that no descriptor remains fails, so such a generation
cannot return a unit.  (Pairwise distinctness is *not* required: duplicate
indices collapse in the hook dictionary and generation still succeeds, see
the counterexample.) -/
theorem c10_hook_indices_in_range (ver : Nat) (st : CacheState) (c : CodeUnit) (lineno : Nat)
    (k : ResumeKey) (u : CodeUnit) (st' : CacheState)
    (h : generateRoot ver st c lineno k = .ok (u, st')) :
    ∀ fn ∈ k.setup_fns, 0 ≤ fn.stack_index ∧ fn.stack_index < Int.ofNat k.nstack := by
  intro fn hfn
  simp only [generateRoot] at h
  split at h
  · exact Except.noConfusion h
  · rename_i target hfind
    split at h
    · exact Except.noConfusion h
    · rename_i hookT hbt
      split at h
      · exact Except.noConfusion h
      · rename_i acc hloop
        split at h
        · exact Except.noConfusion h
        · rename_i hno
          have hempty : acc.hooks = [] := not_ne_iff.mp hno
          have hmem := mem_buildHooks k.setup_fns fn hfn
          rcases stackLoop_hooks ver (offsetToInst c.insts) k.stack_ctx_vars
              (List.range k.nstack) _ acc hloop fn.stack_index hmem with h1 | h1
          · rw [hempty] at h1
            exact absurd h1 (by simp [dmem, dget])
          · rcases List.mem_map.1 h1 with ⟨i, hi, heq⟩
            have hlt := List.mem_range.1 hi
            rw [← heq]
            constructor
            · exact Int.ofNat_nonneg i
            · exact Int.ofNat_lt.mpr hlt

/-- C10 counterexample: two descriptors with the *same* stack index 0 do
not make generation fail — the hook dictionary collapses them and the
final assertion still passes, so generation succeeds even though the
indices are not pairwise distinct. -/
theorem c10_counterexample :
    (generateRoot 10 st0 rootG 7 kDup).toOption.isSome = true ∧
      kDup.setup_fns.map (fun fn => fn.stack_index) = [0, 0] ∧
      ¬ ([0, 0] : List Int).Nodup :=
  ⟨rfl, rfl, by decide⟩

/-- The fixture run with one hook at slot 0 on a pre-3.11 era. -/
def runB10 : CodeUnit × CacheState :=
  match generateRoot 10 st0 rootG 7 kB with
  | .ok r => r
  | .error _ => (rootG, st0)

theorem c10_hook_indices_in_range_witness :
    generateRoot 10 st0 rootG 7 kB = .ok (runB10.1, runB10.2) ∧
      ∀ fn ∈ kB.setup_fns, 0 ≤ fn.stack_index ∧ fn.stack_index < Int.ofNat kB.nstack :=
  ⟨rfl, c10_hook_indices_in_range 10 st0 rootG 7 kB runB10.1 runB10.2 rfl⟩

/-! ## C5 — line monotonicity -/

/-- Every instruction of the list carries no line marker. -/
def allNoLine (l : List Instruction) : Prop := ∀ i ∈ l, i.startsLine = none

/-- The line markers of a stream, in order. -/
def linesOf (l : List Instruction) : List Nat := l.filterMap (fun i => i.startsLine)

/-- Non-decreasing from `base`. -/
def chainOk (base : Nat) : List Nat → Bool
  | [] => true
  | x :: r => decide (base ≤ x) && chainOk x r

theorem allNoLine_append {a b : List Instruction} (ha : allNoLine a) (hb : allNoLine b) :
    allNoLine (a ++ b) := by
  intro i hi
  rcases List.mem_append.1 hi with h | h
  · exact ha i h
  · exact hb i h

theorem allNoLine_nil : allNoLine [] := by
  intro i hi
  cases hi

theorem startsLine_bumpDepth (si : Int) (i : Instruction) :
    (bumpDepth si i).startsLine = i.startsLine := by
  unfold bumpDepth
  cases i.exn <;> rfl

theorem withTemplate_noLine (ver ctr : Nat) : allNoLine (withTemplateCompiled ver ctr).1 := by
  unfold withTemplateCompiled
  split <;>
    · intro i hi
      fin_cases hi <;> rfl

theorem bfts_noLine (tmpl : List Instruction) (si : Int) (ctr : Nat) (S E : List Instruction)
    (c' : Nat) (ht : allNoLine tmpl)
    (h : bytecodeFromTemplateWithSplit tmpl si ctr = .ok (S, E, c')) :
    allNoLine S ∧ allNoLine E := by
  have htc : allNoLine ((tmpl ++ [mkInst ctr "POP_TOP"]).map (bumpDepth si)) := by
    intro i hi
    rcases List.mem_map.1 hi with ⟨j, hj, rfl⟩
    rw [startsLine_bumpDepth]
    rcases List.mem_append.1 hj with hj | hj
    · exact ht j hj
    · rcases List.mem_singleton.1 hj with rfl
      rfl
  simp only [bytecodeFromTemplateWithSplit] at h
  split at h
  · exact Except.noConfusion h
  · rename_i di hidx
    split at h
    · exact Except.noConfusion h
    · rename_i dummyInst hget
      split at h
      · exact Except.noConfusion h
      · rename_i nxt hget2
        split at h
        · injection h with h'
          have hS : _ = S := congrArg (fun p => p.1) h'
          have hE : _ = E := congrArg (fun p => p.2.1) h'
          have htc2 : allNoLine (((tmpl ++ [mkInst ctr "POP_TOP"]).map (bumpDepth si)).set di
              (overwriteNop dummyInst) |>.set (di + 1) (overwriteNop nxt)) := by
            intro i hi
            rcases List.mem_or_eq_of_mem_set hi with hi2 | rfl
            · rcases List.mem_or_eq_of_mem_set hi2 with hi3 | rfl
              · exact htc i hi3
              · rfl
            · rfl
          constructor
          · rw [← hS]
            intro i hi
            exact htc2 i (List.mem_of_mem_take hi)
          · rw [← hE]
            intro i hi
            exact htc2 i (List.mem_of_mem_drop hi)
        · exact Except.noConfusion h

theorem initialPushNull_noLine (ver ctr : Nat) : allNoLine (initialPushNull ver ctr).1 := by
  unfold initialPushNull
  split
  · split
    · intro i hi
      fin_cases hi <;> rfl
    · intro i hi
      fin_cases hi <;> rfl
  · exact allNoLine_nil

theorem call_noLine (rw : ReenterWith) (ver ctr : Nat) (cleanup hookInsts : List Instruction)
    (exnT : Option Instruction) (cleanup' : List Instruction) (c' : Nat)
    (hc : allNoLine cleanup)
    (h : rw.call ver ctr cleanup = .ok (hookInsts, exnT, cleanup', c')) :
    allNoLine hookInsts ∧ allNoLine cleanup' := by
  simp only [ReenterWith.call] at h
  split at h
  · exact Except.noConfusion h
  · rename_i p hbfts
    rcases p with ⟨setupWith, epilogue, c5⟩
    have hsplit := bfts_noLine _ _ _ _ _ _ (withTemplate_noLine ver _) hbfts
    split at h
    · exact Except.noConfusion h
    · rename_i ci hci
      split at h
      · exact Except.noConfusion h
      · rename_i ctxInst hctx
        split at h
        · injection h with h'
          have hH : _ = hookInsts := congrArg (fun p => p.1) h'
          have hC : _ = cleanup' := congrArg (fun p => p.2.2.1) h'
          constructor
          · rw [← hH]
            refine allNoLine_append (allNoLine_append (allNoLine_append
              (initialPushNull_noLine ver ctr) ?_) ?_) ?_
            · intro i hi
              rcases List.mem_map.1 hi with ⟨j, hj, rfl⟩
              rfl
            · intro i hi
              rcases List.mem_singleton.1 hi with rfl
              rfl
            · intro i hi
              rcases List.mem_or_eq_of_mem_set hi with hi2 | rfl
              · exact hsplit.1 i hi2
              · rfl
          · rw [← hC]
            exact allNoLine_append hsplit.2 hc
        · exact Except.noConfusion h

theorem emitNulls_noLine (i : Nat) :
    ∀ (l : List Nat) (ni ctr : Nat), allNoLine (emitNulls i l ni ctr).1 := by
  intro l
  induction l with
  | nil => intro ni ctr; exact allNoLine_nil
  | cons x rest ih =>
    intro ni ctr
    unfold emitNulls
    split
    · intro j hj
      rcases List.mem_cons.1 hj with rfl | hj2
      · rfl
      · exact ih (ni + 1) (ctr + 1) j hj2
    · exact allNoLine_nil

theorem loadTupleAndCall_noLine (ver ctr : Nat) (tup : List String) :
    allNoLine (loadTupleAndCall ver ctr tup).1 := by
  unfold loadTupleAndCall
  refine allNoLine_append (allNoLine_append (initialPushNull_noLine ver ctr) ?_) ?_
  · intro i hi
    rcases List.mem_map.1 hi with ⟨j, hj, rfl⟩
    rfl
  · intro i hi
    rcases List.mem_singleton.1 hi with rfl
    rfl

theorem processHook_noLine (ver : Nat) (o2i : List (Nat × Instruction)) (hook : ReenterWith)
    (i : Nat) (acc acc2 : LoopAcc) (h : processHook ver o2i hook i acc = .ok acc2)
    (hp : allNoLine acc.pfx) (hc : allNoLine acc.cleanup) :
    allNoLine acc2.pfx ∧ allNoLine acc2.cleanup := by
  simp only [processHook] at h
  split at h
  · exact Except.noConfusion h
  · rename_i q hcall
    rcases q with ⟨hookInsts, exnT, cleanup', c'⟩
    have hcl := call_noLine hook ver acc.ctr acc.cleanup hookInsts exnT cleanup' c' hc hcall
    repeat' split at h
    all_goals
      first
        | exact Except.noConfusion h
        | (injection h with h'
           refine ⟨?_, ?_⟩ <;> rw [← h']
           · exact allNoLine_append hp hcl.1
           · exact hcl.2)

theorem stackLoopStep_noLine (ver : Nat) (o2i : List (Nat × Instruction))
    (scv : List (Nat × List String)) (acc : LoopAcc) (i : Nat) (acc2 : LoopAcc)
    (h : stackLoopStep ver o2i scv acc i = .ok acc2)
    (hp : allNoLine acc.pfx) (hc : allNoLine acc.cleanup) :
    allNoLine acc2.pfx ∧ allNoLine acc2.cleanup := by
  simp only [stackLoopStep] at h
  have hacc1 : allNoLine (acc.pfx ++ (emitNulls i acc.nullRem acc.ni acc.ctr).1 ++
      [mkInstV (emitNulls i acc.nullRem acc.ni acc.ctr).2.2.2 "LOAD_FAST" (stackName i)]) := by
    refine allNoLine_append (allNoLine_append hp (emitNulls_noLine i _ _ _)) ?_
    intro j hj
    rcases List.mem_singleton.1 hj with rfl
    rfl
  split at h
  · exact Except.noConfusion h
  · rename_i accH heq2
    have hH : allNoLine accH.pfx ∧ allNoLine accH.cleanup := by
      split at heq2
      · injection heq2 with h2
        rw [← h2]
        exact ⟨hacc1, hc⟩
      · rename_i hook hdget
        exact processHook_noLine ver o2i hook i _ accH heq2 hacc1 hc
    split at h
    · injection h with h2
      rw [← h2]
      exact hH
    · injection h with h2
      rw [← h2]
      exact ⟨allNoLine_append hH.1 (loadTupleAndCall_noLine ver accH.ctr _), hH.2⟩

theorem stackLoop_noLine (ver : Nat) (o2i : List (Nat × Instruction))
    (scv : List (Nat × List String)) :
    ∀ (is : List Nat) (acc acc' : LoopAcc),
      stackLoop ver o2i scv is acc = .ok acc' →
      allNoLine acc.pfx → allNoLine acc.cleanup →
      allNoLine acc'.pfx ∧ allNoLine acc'.cleanup := by
  intro is
  induction is with
  | nil =>
    intro acc acc' h hp hc
    unfold stackLoop at h
    injection h with h'
    rw [← h']
    exact ⟨hp, hc⟩
  | cons i rest ih =>
    intro acc acc' h hp hc
    unfold stackLoop at h
    split at h
    · exact Except.noConfusion h
    · rename_i accm hstep
      have := stackLoopStep_noLine ver o2i scv acc i accm hstep hp hc
      exact ih accm acc' h this.1 this.2

theorem ctxVarsInsts_noLine (ver : Nat) :
    ∀ (l : List (String × List String)) (ctr : Nat), allNoLine (ctxVarsInsts ver ctr l).1 := by
  intro l
  induction l with
  | nil => intro ctr; exact allNoLine_nil
  | cons p rest ih =>
    intro ctr
    rcases p with ⟨n, vals⟩
    unfold ctxVarsInsts
    intro j hj
    rcases List.mem_cons.1 hj with rfl | hj2
    · rfl
    · rcases List.mem_append.1 hj2 with hj3 | hj3
      · exact loadTupleAndCall_noLine ver _ _ j hj3
      · rcases List.mem_cons.1 hj3 with rfl | hj4
        · rfl
        · exact ih _ j hj4

theorem argnamesNullInsts_noLine (ver : Nat) (args : List String) :
    ∀ (l : List String) (ctr : Nat) (res : List Instruction × Nat),
      argnamesNullInsts ver args ctr l = .ok res → allNoLine res.1 := by
  intro l
  induction l with
  | nil =>
    intro ctr res h
    injection h with h'
    rw [← h']
    exact allNoLine_nil
  | cons v rest ih =>
    intro ctr res h
    unfold argnamesNullInsts at h
    split at h
    · exact Except.noConfusion h
    · split at h
      · exact Except.noConfusion h
      · split at h
        · exact Except.noConfusion h
        · rename_i lc hrec
          injection h with h'
          rw [← h']
          intro j hj
          rcases List.mem_cons.1 hj with rfl | hj2
          · rfl
          · rcases List.mem_cons.1 hj2 with rfl | hj3
            · rfl
            · exact ih _ lc hrec j hj3

theorem frameSetup_noLine (ver : Nat) (fv : List String) (n0 : Nat) :
    allNoLine (frameSetup ver fv n0).1 := by
  unfold frameSetup
  split
  · split
    · intro i hi
      fin_cases hi <;> rfl
    · intro i hi
      fin_cases hi <;> rfl
  · exact allNoLine_nil

theorem unreachableCodes_noLine (ctr : Nat) : allNoLine (unreachableCodes ctr).1 := by
  intro i hi
  fin_cases hi <;> rfl

/-- Characterization of the strip pass: line markers are removed from
exactly the instructions strictly before the first instruction whose
offset equals the target offset. -/
theorem stripLines_eq (off : Option Nat) (l : List Instruction) :
    stripLines off l =
      (l.take (l.findIdx (fun i => decide (i.offset = off)))).map
        (fun i => { i with startsLine := none }) ++
      l.drop (l.findIdx (fun i => decide (i.offset = off))) := by
  induction l with
  | nil => rfl
  | cons a rest ih =>
    by_cases ha : a.offset = off
    · simp [stripLines, ha, List.findIdx_cons]
    · simp [stripLines, ha, List.findIdx_cons, ih]

theorem remapInst_startsLine (remap : List (Nat × Nat)) (i : Instruction) :
    (remapInst remap i).startsLine = i.startsLine := by
  unfold remapInst
  split
  · rfl
  · split <;> rfl

theorem assembleFrom_length (n : Nat) (l : List Instruction) :
    (assembleFrom n l).length = l.length := by
  induction l generalizing n with
  | nil => rfl
  | cons a r ih => simp [assembleFrom, ih]

theorem assembleFrom_get?_startsLine (n : Nat) (l : List Instruction) (j : Nat) :
    ((assembleFrom n l).get? j).map (fun i => i.startsLine) =
      (l.get? j).map (fun i => i.startsLine) := by
  induction l generalizing n j with
  | nil => rfl
  | cons a r ih =>
    cases j with
    | zero => rfl
    | succ j2 => exact ih (n + 1) j2

theorem linesOf_append (a b : List Instruction) :
    linesOf (a ++ b) = linesOf a ++ linesOf b := by
  simp [linesOf, List.filterMap_append]

theorem linesOf_eq_nil (l : List Instruction) (h : allNoLine l) : linesOf l = [] := by
  induction l with
  | nil => rfl
  | cons a rest ih =>
    have ha : a.startsLine = none := h a (List.mem_cons_self _ _)
    simp only [linesOf, List.filterMap_cons, ha]
    exact ih (fun i hi => h i (List.mem_cons_of_mem _ hi))

theorem linesOf_map (g : Instruction → Instruction)
    (hg : ∀ i, (g i).startsLine = i.startsLine) (l : List Instruction) :
    linesOf (l.map g) = linesOf l := by
  induction l with
  | nil => rfl
  | cons a rest ih =>
    simp only [linesOf, List.map_cons, List.filterMap_cons, hg a]
    cases a.startsLine <;> simp only [ih, linesOf] at ih ⊢ <;> rw [ih]

theorem linesOf_assembleFrom (n : Nat) (l : List Instruction) :
    linesOf (assembleFrom n l) = linesOf l := by
  induction l generalizing n with
  | nil => rfl
  | cons a rest ih =>
    simp only [assembleFrom, linesOf, List.filterMap_cons]
    have : ({ a with offset := some (2 * n) } : Instruction).startsLine = a.startsLine := rfl
    rw [this]
    cases a.startsLine <;> simp only [linesOf] at ih ⊢ <;> rw [ih]

theorem stripLines_length (off : Option Nat) (l : List Instruction) :
    (stripLines off l).length = l.length := by
  induction l with
  | nil => rfl
  | cons a rest ih =>
    unfold stripLines
    split
    · rfl
    · simpa using ih

theorem stripLines_before (off : Option Nat) (l : List Instruction) :
    ∀ j, j < l.findIdx (fun i => decide (i.offset = off)) →
      ∀ inst, (stripLines off l).get? j = some inst → inst.startsLine = none := by
  induction l with
  | nil =>
    intro j hj inst hget
    simp [List.findIdx, List.findIdx.go] at hj
  | cons a rest ih =>
    intro j hj inst hget
    by_cases ha : a.offset = off
    · rw [List.findIdx_cons] at hj
      simp [ha] at hj
    · rw [List.findIdx_cons] at hj
      simp only [ha, decide_False, cond_false] at hj
      unfold stripLines at hget
      rw [if_neg ha] at hget
      cases j with
      | zero =>
        injection hget with h2
        rw [← h2]
      | succ j2 =>
        exact ih j2 (by omega) inst hget

theorem stripLines_after (off : Option Nat) (l : List Instruction) :
    ∀ j, l.findIdx (fun i => decide (i.offset = off)) ≤ j →
      (stripLines off l).get? j = l.get? j := by
  induction l with
  | nil => intro j hj; rfl
  | cons a rest ih =>
    intro j hj
    by_cases ha : a.offset = off
    · unfold stripLines
      rw [if_pos ha]
    · rw [List.findIdx_cons] at hj
      simp only [ha, decide_False, cond_false] at hj
      unfold stripLines
      rw [if_neg ha]
      cases j with
      | zero => omega
      | succ j2 => exact ih j2 (by omega)

theorem linesOf_stripLines (off : Option Nat) (l : List Instruction) :
    linesOf (stripLines off l) =
      linesOf (l.drop (l.findIdx (fun i => decide (i.offset = off)))) := by
  rw [stripLines_eq, linesOf_append]
  have : linesOf ((l.take (l.findIdx (fun i => decide (i.offset = off)))).map
      (fun i => { i with startsLine := none })) = [] := by
    apply linesOf_eq_nil
    intro i hi
    rcases List.mem_map.1 hi with ⟨j, hj, rfl⟩
    rfl
  rw [this, List.nil_append]

theorem assembleFrom_noLine :
    ∀ (l : List Instruction) (n : Nat), allNoLine l → allNoLine (assembleFrom n l) := by
  intro l
  induction l with
  | nil => intro n h; exact allNoLine_nil
  | cons a rest ih =>
    intro n h i hi
    rcases List.mem_cons.1 hi with rfl | hi2
    · exact h a (List.mem_cons_self _ _)
    · exact ih (n + 1) (fun x hx => h x (List.mem_cons_of_mem _ hx)) i hi2

theorem prologueWithCleanup_noLine (pfx1 cl : List Instruction) (ctr : Nat)
    (h1 : allNoLine pfx1) (h2 : allNoLine cl) :
    allNoLine (prologueWithCleanup pfx1 cl ctr).1 := by
  unfold prologueWithCleanup
  split
  · exact allNoLine_append (allNoLine_append h1 h2) (unreachableCodes_noLine _)
  · exact h1

theorem finalOriginals_length (remap : List (Nat × Nat)) (stripped : List Instruction) :
    (finalOriginals remap stripped).length = stripped.length := by
  unfold finalOriginals
  split
  · unfold remapExnTargets
    rw [List.length_map]
  · rfl

theorem finalOriginals_get_startsLine (remap : List (Nat × Nat)) (stripped : List Instruction) :
    ∀ j, ((finalOriginals remap stripped).get? j).map (fun i => i.startsLine) =
      (stripped.get? j).map (fun i => i.startsLine) := by
  intro j
  unfold finalOriginals
  split
  · unfold remapExnTargets
    rw [List.get?_map]
    cases stripped.get? j with
    | none => rfl
    | some i => simp [remapInst_startsLine]
  · rfl

theorem finalOriginals_linesOf (remap : List (Nat × Nat)) (stripped : List Instruction) :
    linesOf (finalOriginals remap stripped) = linesOf stripped := by
  unfold finalOriginals
  split
  · exact linesOf_map _ (remapInst_startsLine remap) _
  · rfl

/-- The success shape of the root synthesis: the generated body is the
assembled concatenation of a marker-free prologue and the (possibly
exception-remapped) stripped copy of the original stream. -/
theorem generateRoot_insts (ver : Nat) (st : CacheState) (c : CodeUnit) (lineno : Nat)
    (k : ResumeKey) (u : CodeUnit) (st' : CacheState)
    (h : generateRoot ver st c lineno k = .ok (u, st')) :
    ∃ target pc1 fo,
      c.insts.find? (fun i => i.offset == some k.offset) = some target ∧
      target.offset = some k.offset ∧
      u.insts = assembleFrom 0 (pc1 ++ fo) ∧
      allNoLine pc1 ∧
      fo.length = c.insts.length ∧
      (∀ j, (fo.get? j).map (fun i => i.startsLine) =
        ((stripLines target.offset c.insts).get? j).map (fun i => i.startsLine)) ∧
      linesOf fo = linesOf (stripLines target.offset c.insts) := by
  simp only [generateRoot] at h
  split at h
  · exact Except.noConfusion h
  · rename_i target hfind
    have htoff : target.offset = some k.offset := by
      have := List.find?_some hfind
      exact eq_of_beq this
    split at h
    · exact Except.noConfusion h
    · rename_i hookT hbt
      split at h
      · exact Except.noConfusion h
      · rename_i acc hloop
        split at h
        · exact Except.noConfusion h
        · rename_i hno
          split at h
          · exact Except.noConfusion h
          · rename_i anic hani
            split at h
            · exact Except.noConfusion h
            · rename_i hra
              injection h with h'
              have hu : _ = u := congrArg Prod.fst h'
              have haccNL : allNoLine acc.pfx ∧ allNoLine acc.cleanup :=
                stackLoop_noLine ver _ _ _ _ acc hloop (frameSetup_noLine ver _ _)
                  allNoLine_nil
              have hpfx1 : allNoLine (acc.pfx ++ (ctxVarsInsts ver acc.ctr k.argnames_ctx_vars).1
                  ++ anic.1 ++ [{ mkInst anic.2 "JUMP_ABSOLUTE" with
                      jumpTargetUid := some target.uid }]) := by
                refine allNoLine_append (allNoLine_append (allNoLine_append haccNL.1
                  (ctxVarsInsts_noLine ver _ _)) ?_) ?_
                · exact argnamesNullInsts_noLine ver _ _ _ anic hani
                · intro i hi
                  rcases List.mem_singleton.1 hi with rfl
                  rfl
              refine ⟨target,
                (prologueWithCleanup
                  (acc.pfx ++ (ctxVarsInsts ver acc.ctr k.argnames_ctx_vars).1 ++ anic.1 ++
                    [{ mkInst anic.2 "JUMP_ABSOLUTE" with jumpTargetUid := some target.uid }])
                  acc.cleanup (anic.2 + 1)).1,
                finalOriginals acc.remap (stripLines target.offset c.insts),
                hfind, htoff, ?_, ?_, ?_, ?_, ?_⟩
              · rw [← hu]
                rfl
              · exact prologueWithCleanup_noLine _ _ _ hpfx1 haccNL.2
              · rw [finalOriginals_length, stripLines_length]
              · exact finalOriginals_get_startsLine _ _
              · exact finalOriginals_linesOf _ _

/-- C5 (amended): after a successful root synthesis the generated body
splits into a prologue with no line markers and a stripped copy of the
original stream: every original instruction strictly before the jump
target (the first instruction at the requested offset) carries no line
marker, and every original instruction at or after it keeps its original
marker.  The declared first line is always the requested line, but the
markers of the generated unit are non-decreasing from it only under the
side condition that the original markers from the jump target on are
themselves non-decreasing and bounded below by the requested line — the
strip pass does not touch the retained tail, so without that condition
the monotonicity conjunct fails (see the counterexample). -/
theorem c5_line_monotonicity (ver : Nat) (st : CacheState) (c : CodeUnit) (lineno : Nat)
    (k : ResumeKey) (u : CodeUnit) (st' : CacheState)
    (hgen : generateRoot ver st c lineno k = .ok (u, st')) :
    ∃ pfx orig,
      u.insts = pfx ++ orig ∧
      (∀ i ∈ pfx, i.startsLine = none) ∧
      orig.length = c.insts.length ∧
      (∀ j inst, j < c.insts.findIdx (fun i => decide (i.offset = some k.offset)) →
        orig.get? j = some inst → inst.startsLine = none) ∧
      (∀ j, c.insts.findIdx (fun i => decide (i.offset = some k.offset)) ≤ j →
        (orig.get? j).map (fun i => i.startsLine) =
          (c.insts.get? j).map (fun i => i.startsLine)) ∧
      (chainOk lineno (linesOf
          (c.insts.drop (c.insts.findIdx (fun i => decide (i.offset = some k.offset))))) =
          true →
        u.firstlineno = lineno ∧ chainOk u.firstlineno (linesOf u.insts) = true) := by
  obtain ⟨target, pc1, fo, hfind, htoff, hinsts, hnl, hlen, hpt, hlo⟩ :=
    generateRoot_insts ver st c lineno k u st' hgen
  rw [htoff] at hpt hlo
  refine ⟨assembleFrom 0 pc1, assembleFrom pc1.length fo, ?_, ?_, ?_, ?_, ?_, ?_⟩
  · rw [hinsts, assembleFrom_append, Nat.zero_add]
  · exact fun i hi => assembleFrom_noLine pc1 0 hnl i hi
  · rw [assembleFrom_length]
    exact hlen
  · intro j inst hj hget
    have h1 : ((assembleFrom pc1.length fo).get? j).map (fun i => i.startsLine) =
        ((stripLines (some k.offset) c.insts).get? j).map (fun i => i.startsLine) := by
      rw [assembleFrom_get?_startsLine]
      exact hpt j
    rw [hget] at h1
    cases hs : (stripLines (some k.offset) c.insts).get? j with
    | none => rw [hs] at h1; exact Option.noConfusion h1
    | some inst2 =>
      rw [hs] at h1
      have : inst.startsLine = inst2.startsLine := by
        injection h1
      rw [this]
      exact stripLines_before (some k.offset) c.insts j hj inst2 hs
  · intro j hj
    rw [assembleFrom_get?_startsLine, hpt j, stripLines_after (some k.offset) c.insts j hj]
  · intro hchain
    have hfl : u.firstlineno = lineno :=
      generateRoot_firstlineno ver st c lineno k u st' hgen
    refine ⟨hfl, ?_⟩
    have : linesOf u.insts =
        linesOf (c.insts.drop (c.insts.findIdx (fun i => decide (i.offset = some k.offset)))) := by
      rw [hinsts, linesOf_assembleFrom, linesOf_append, linesOf_eq_nil pc1 hnl,
        List.nil_append, hlo, linesOf_stripLines]
    rw [this, hfl]
    exact hchain

/-- The root synthesis run at requested line 5, past the markers 2 and 3
of the retained tail. -/
def runA5 : CodeUnit × CacheState :=
  match generateRoot 10 st0 rootF 5 kA with
  | .ok r => r
  | .error _ => (rootF, st0)

/-- C5 counterexample: the fixture run at requested line 5 keeps the
original markers 2 and 3 at and after the jump target (lines 420-425
strip only strictly before it) while the declared first line is the
requested 5 (line 329) — the generated unit's markers are *not*
non-decreasing from its declared first line, so the unconditional
monotonicity conjunct of the claim fails. -/
theorem c5_counterexample :
    generateRoot 10 st0 rootF 5 kA = .ok (runA5.1, runA5.2) ∧
      runA5.1.firstlineno = 5 ∧
      linesOf runA5.1.insts = [2, 3] ∧
      chainOk runA5.1.firstlineno (linesOf runA5.1.insts) = false :=
  ⟨rfl, rfl, rfl, rfl⟩

/-- The root synthesis run at requested line 2 (the jump target's own
line), where the retained original markers 2, 3 are non-decreasing from
the request, so the monotonicity side condition holds. -/
def runA5b : CodeUnit × CacheState :=
  match generateRoot 10 st0 rootF 2 kA with
  | .ok r => r
  | .error _ => (rootF, st0)

theorem c5_line_monotonicity_witness :
    generateRoot 10 st0 rootF 2 kA = .ok (runA5b.1, runA5b.2) ∧
      chainOk 2 (linesOf (rootF.insts.drop
        (rootF.insts.findIdx (fun i => decide (i.offset = some kA.offset))))) = true ∧
      runA5b.1.firstlineno = 2 ∧
      chainOk runA5b.1.firstlineno (linesOf runA5b.1.insts) = true ∧
      (∃ pfx orig,
        runA5b.1.insts = pfx ++ orig ∧
        (∀ i ∈ pfx, i.startsLine = none) ∧
        orig.length = rootF.insts.length ∧
        (∀ j inst, j < rootF.insts.findIdx (fun i => decide (i.offset = some kA.offset)) →
          orig.get? j = some inst → inst.startsLine = none) ∧
        (∀ j, rootF.insts.findIdx (fun i => decide (i.offset = some kA.offset)) ≤ j →
          (orig.get? j).map (fun i => i.startsLine) =
            (rootF.insts.get? j).map (fun i => i.startsLine)) ∧
        (chainOk 2 (linesOf
            (rootF.insts.drop
              (rootF.insts.findIdx (fun i => decide (i.offset = some kA.offset))))) = true →
          runA5b.1.firstlineno = 2 ∧
            chainOk runA5b.1.firstlineno (linesOf runA5b.1.insts) = true)) :=
  ⟨rfl, rfl, rfl, rfl,
    c5_line_monotonicity 10 st0 rootF 2 kA runA5b.1 runA5b.2 rfl⟩

/-! ## C4 — region remap soundness -/

/-- Lower bound on the uids an instruction mentions: its own identity and
any exception-entry target it carries. -/
def instLB (n : Nat) (i : Instruction) : Prop :=
  n ≤ i.uid ∧ ∀ e, i.exn = some e → n ≤ e.target

def instsLB (n : Nat) (l : List Instruction) : Prop := ∀ i ∈ l, instLB n i

/-- Well-formedness of a stored code unit relative to the allocator: all
instruction uids lie below the counter and offsets are unique. -/
def codeWF (c : CodeUnit) (n : Nat) : Bool :=
  c.insts.all (fun i => decide (i.uid < n)) &&
    decide ((c.insts.map (fun i => i.offset)).Nodup)

theorem instsLB_append {n : Nat} {a b : List Instruction} (ha : instsLB n a)
    (hb : instsLB n b) : instsLB n (a ++ b) := by
  intro i hi
  rcases List.mem_append.1 hi with h | h
  · exact ha i h
  · exact hb i h

theorem instsLB_nil (n : Nat) : instsLB n [] := by
  intro i hi
  cases hi

theorem instLB_mk (n u : Nat) (op : String) (h : n ≤ u) : instLB n (mkInst u op) :=
  ⟨h, fun e he => Option.noConfusion he⟩

theorem instLB_mkA (n u : Nat) (op : String) (a : Int) (h : n ≤ u) :
    instLB n (mkInstA u op a) :=
  ⟨h, fun e he => Option.noConfusion he⟩

theorem instLB_mkV (n u : Nat) (op : String) (v : String) (h : n ≤ u) :
    instLB n (mkInstV u op v) :=
  ⟨h, fun e he => Option.noConfusion he⟩

theorem instLB_bumpDepth (n : Nat) (si : Int) (i : Instruction) (h : instLB n i) :
    instLB n (bumpDepth si i) := by
  unfold bumpDepth
  rcases hx : i.exn with _ | e
  · exact h
  · refine ⟨h.1, fun e2 he2 => ?_⟩
    injection he2 with he3
    rw [← he3]
    exact h.2 e hx

theorem instLB_overwriteNop (n : Nat) (i : Instruction) (h : instLB n i) :
    instLB n (overwriteNop i) :=
  ⟨h.1, fun e he => Option.noConfusion he⟩

theorem withTemplate_LB (ver : Nat) : ∀ ctr n, n ≤ ctr →
    instsLB n (withTemplateCompiled ver ctr).1 ∧ n ≤ (withTemplateCompiled ver ctr).2 := by
  intro ctr n hn
  unfold withTemplateCompiled
  split <;>
    · dsimp only
      refine ⟨?_, by omega⟩
      intro i hi
      fin_cases hi <;>
        (simp only [instLB, withExn, mkInst, mkInstV, mkInstA]
         refine ⟨by omega, fun e he => ?_⟩
         first
           | exact Option.noConfusion he
           | (injection he with he2
              rw [← he2]
              dsimp only
              omega))

theorem initialPushNull_LB (ver ctr n : Nat) (hn : n ≤ ctr) :
    instsLB n (initialPushNull ver ctr).1 ∧ ctr ≤ (initialPushNull ver ctr).2 := by
  unfold initialPushNull
  split
  · split
    · refine ⟨?_, by omega⟩
      intro i hi
      fin_cases hi
      · exact instLB_mk n ctr _ hn
      · exact instLB_mkA n (ctr + 1) _ _ (by omega)
    · refine ⟨?_, by omega⟩
      intro i hi
      fin_cases hi
      exact instLB_mk n ctr _ hn
  · exact ⟨instsLB_nil n, Nat.le_refl ctr⟩

theorem head?_mem {α : Type} {l : List α} {a : α} (h : l.head? = some a) : a ∈ l := by
  cases l with
  | nil => exact Option.noConfusion h
  | cons b rest =>
    injection h with h2
    rw [h2]
    exact List.mem_cons_self _ _

/-- The shape of a successful template split: uid bounds carry over and the
counter advances by one. -/
theorem bfts_LB (tmpl : List Instruction) (si : Int) (ctr : Nat) (S E : List Instruction)
    (c' : Nat) (n : Nat) (ht : instsLB n tmpl) (hn : n ≤ ctr)
    (h : bytecodeFromTemplateWithSplit tmpl si ctr = .ok (S, E, c')) :
    instsLB n S ∧ instsLB n E ∧ c' = ctr + 1 := by
  have htc : instsLB n ((tmpl ++ [mkInst ctr "POP_TOP"]).map (bumpDepth si)) := by
    intro i hi
    rcases List.mem_map.1 hi with ⟨j, hj, rfl⟩
    refine instLB_bumpDepth n si j ?_
    rcases List.mem_append.1 hj with hj | hj
    · exact ht j hj
    · rcases List.mem_singleton.1 hj with rfl
      exact instLB_mk n ctr _ hn
  simp only [bytecodeFromTemplateWithSplit] at h
  split at h
  · exact Except.noConfusion h
  · rename_i di hidx
    split at h
    · exact Except.noConfusion h
    · rename_i dummyInst hget
      split at h
      · exact Except.noConfusion h
      · rename_i nxt hget2
        split at h
        · injection h with h'
          have hS : _ = S := congrArg (fun p => p.1) h'
          have hE : _ = E := congrArg (fun p => p.2.1) h'
          have hc : _ = c' := congrArg (fun p => p.2.2) h'
          have htc2 : instsLB n (((tmpl ++ [mkInst ctr "POP_TOP"]).map (bumpDepth si)).set di
              (overwriteNop dummyInst) |>.set (di + 1) (overwriteNop nxt)) := by
            intro i hi
            rcases List.mem_or_eq_of_mem_set hi with hi2 | rfl
            · rcases List.mem_or_eq_of_mem_set hi2 with hi3 | rfl
              · exact htc i hi3
              · refine instLB_overwriteNop n dummyInst (htc _ ?_)
                have := get?_lt_length hget
                have h2 := List.get?_mem hget
                exact h2
            · refine instLB_overwriteNop n nxt ?_
              have h3' : ((tmpl ++ [mkInst ctr "POP_TOP"]).map (bumpDepth si)).get? (di + 1) =
                  some nxt := by
                have := hget2
                rwa [List.get?_set_ne _ _ (by omega)] at this
              exact htc _ (List.get?_mem h3')
          refine ⟨?_, ?_, hc.symm.trans rfl⟩
          · rw [← hS]
            intro i hi
            exact htc2 i (List.mem_of_mem_take hi)
          · rw [← hE]
            intro i hi
            exact htc2 i (List.mem_of_mem_drop hi)
        · exact Except.noConfusion h

theorem mem_dinsert {α β : Type} [DecidableEq α] {l : List (α × β)} {k : α} {v : β}
    {p : α × β} (h : p ∈ dinsert l k v) : p ∈ l ∨ p = (k, v) := by
  unfold dinsert at h
  split at h
  · rcases List.mem_map.1 h with ⟨q, hq, hqe⟩
    by_cases hk : q.1 = k
    · right
      rw [← hqe, if_pos hk]
    · left
      rw [← hqe, if_neg hk]
      exact hq
  · rcases List.mem_append.1 h with h2 | h2
    · exact Or.inl h2
    · exact Or.inr (List.mem_singleton.1 h2)

theorem dget_foldl_dinsert_skip {α β γ : Type} [DecidableEq γ]
    (key : α → γ) (val : α → β) :
    ∀ (ps : List α) (init : List (γ × β)) (k : γ),
      (∀ p ∈ ps, key p ≠ k) →
      dget (ps.foldl (fun d p => dinsert d (key p) (val p)) init) k = dget init k := by
  intro ps
  induction ps with
  | nil => intro init k _; rfl
  | cons p rest ih =>
    intro init k hk
    simp only [List.foldl_cons]
    rw [ih _ k (fun q hq => hk q (List.mem_cons_of_mem p hq)),
      dget_dinsert_ne _ _ _ _ (Ne.symm (hk p (List.mem_cons_self p rest)))]

theorem dget_foldl_dinsert_mem {α β γ : Type} [DecidableEq γ]
    (key : α → γ) (val : α → β) :
    ∀ (ps : List α) (init : List (γ × β)) (a : α), a ∈ ps →
      (ps.map key).Nodup →
      dget (ps.foldl (fun d p => dinsert d (key p) (val p)) init) (key a) = some (val a) := by
  intro ps
  induction ps with
  | nil => intro init a h; cases h
  | cons p rest ih =>
    intro init a ha hnd
    simp only [List.map_cons, List.nodup_cons] at hnd
    simp only [List.foldl_cons]
    rcases List.mem_cons.1 ha with rfl | ha2
    · rw [dget_foldl_dinsert_skip key val rest _ (key a)
        (fun q hq hqe => hnd.1 (hqe ▸ List.mem_map_of_mem key hq))]
      exact dget_dinsert_self _ (key a) (val a)
    · exact ih _ a ha2 hnd.2

theorem zip_get? {α β : Type} :
    ∀ (as : List α) (bs : List β) (j : Nat) (a : α) (b : β),
      as.get? j = some a → bs.get? j = some b → (as.zip bs).get? j = some (a, b) := by
  intro as
  induction as with
  | nil => intro bs j a b h _; exact Option.noConfusion h
  | cons x rest ih =>
    intro bs j a b ha hb
    cases bs with
    | nil => exact Option.noConfusion hb
    | cons y rbs =>
      cases j with
      | zero =>
        injection ha with ha2
        injection hb with hb2
        subst ha2
        subst hb2
        rfl
      | succ n => exact ih rbs n a b ha hb

/-- With pairwise distinct stack indices the hook-target table returns each
re-entry descriptor's own offset. -/
theorem buildHookTargets_get (fns : List ReenterWith) (offs : List Nat)
    (hookT : List (Int × Nat))
    (hnd : (fns.map (fun f => f.stack_index)).Nodup)
    (hok : buildHookTargets fns offs = .ok hookT)
    (j : Nat) (fn : ReenterWith) (o : Nat)
    (hfn : fns.get? j = some fn) (ho : offs.get? j = some o) :
    dget hookT fn.stack_index = some o := by
  unfold buildHookTargets at hok
  split at hok
  · rename_i hlen
    injection hok with hok2
    have hj : j < fns.length := get?_lt_length hfn
    have hto : (offs.take fns.length).get? j = some o := by
      rw [List.get?_take hj]
      exact ho
    have hmem : (fn, o) ∈ fns.zip (offs.take fns.length) :=
      List.get?_mem (zip_get? fns (offs.take fns.length) j fn o hfn hto)
    have hlen2 : fns.length ≤ (offs.take fns.length).length := by
      rw [List.length_take]
      omega
    have hndz : ((fns.zip (offs.take fns.length)).map
        (fun p => p.1.stack_index)).Nodup := by
      have h1 : (fns.zip (offs.take fns.length)).map Prod.fst = fns :=
        List.map_fst_zip _ _ hlen2
      have h2 : ((fns.zip (offs.take fns.length)).map Prod.fst).map
          (fun f => f.stack_index) = (fns.zip (offs.take fns.length)).map
          (fun p => p.1.stack_index) := by
        rw [List.map_map]
        rfl
      rw [← h2, h1]
      exact hnd
    rw [← hok2]
    exact dget_foldl_dinsert_mem (fun p => p.1.stack_index) Prod.snd
      (fns.zip (offs.take fns.length)) [] (fn, o) hmem hndz
  · exact Except.noConfusion hok

theorem dget_foldl_o2i_skip :
    ∀ (insts : List Instruction) (init : List (Nat × Instruction)) (o : Nat),
      (∀ i ∈ insts, i.offset ≠ some o) →
      dget (insts.foldl (fun d i => match i.offset with
        | some o2 => dinsert d o2 i
        | none => d) init) o = dget init o := by
  intro insts
  induction insts with
  | nil => intro init o _; rfl
  | cons i rest ih =>
    intro init o hk
    simp only [List.foldl_cons]
    rw [ih _ o (fun q hq => hk q (List.mem_cons_of_mem i hq))]
    cases hoff : i.offset with
    | none => rfl
    | some o2 =>
      have hne : o2 ≠ o := fun he => hk i (List.mem_cons_self i rest) (by rw [hoff, he])
      exact dget_dinsert_ne _ _ _ _ (Ne.symm hne)

theorem dget_foldl_o2i_mem :
    ∀ (insts : List Instruction) (init : List (Nat × Instruction))
      (t : Instruction) (o : Nat),
      t ∈ insts → t.offset = some o → (insts.map (fun i => i.offset)).Nodup →
      dget (insts.foldl (fun d i => match i.offset with
        | some o2 => dinsert d o2 i
        | none => d) init) o = some t := by
  intro insts
  induction insts with
  | nil => intro init t o ht; cases ht
  | cons i rest ih =>
    intro init t o ht hoff hnd
    simp only [List.map_cons, List.nodup_cons] at hnd
    simp only [List.foldl_cons]
    rcases List.mem_cons.1 ht with rfl | ht2
    · rw [dget_foldl_o2i_skip rest _ o ?_]
      · rw [hoff]
        exact dget_dinsert_self init o t
      · intro q hq hqo
        refine hnd.1 ?_
        rw [hoff, ← hqo]
        exact List.mem_map_of_mem _ hq
    · exact ih _ t o ht2 hoff hnd.2

/-- With pairwise distinct offsets the offset-to-instruction table of the
synthesis returns the unique instruction at each populated offset. -/
theorem dget_offsetToInst (insts : List Instruction) (t : Instruction) (o : Nat)
    (ht : t ∈ insts) (hoff : t.offset = some o)
    (hnd : (insts.map (fun i => i.offset)).Nodup) :
    dget (offsetToInst insts) o = some t := by
  unfold offsetToInst
  exact dget_foldl_o2i_mem insts [] t o ht hoff hnd

/-- The external assembler only rewrites byte offsets: identities and
exception entries of the stream survive untouched. -/
theorem assembleFrom_mem_shape :
    ∀ (n : Nat) (l : List Instruction) (inst : Instruction), inst ∈ assembleFrom n l →
      ∃ i0 ∈ l, inst.uid = i0.uid ∧ inst.exn = i0.exn := by
  intro n l
  induction l generalizing n with
  | nil => intro inst h; cases h
  | cons i rest ih =>
    intro inst h
    rw [assembleFrom] at h
    rcases List.mem_cons.1 h with heq | h2
    · exact ⟨i, List.mem_cons_self i rest, by rw [heq], by rw [heq]⟩
    · rcases ih (n + 1) inst h2 with ⟨i0, hi0, h1, h2'⟩
      exact ⟨i0, List.mem_cons_of_mem i hi0, h1, h2'⟩

theorem codeWF_uid_lt {c : CodeUnit} {n : Nat} (h : codeWF c n = true) :
    ∀ i ∈ c.insts, i.uid < n := by
  intro i hi
  rw [codeWF, Bool.and_eq_true] at h
  have h1 := h.1
  rw [List.all_eq_true] at h1
  exact of_decide_eq_true (h1 i hi)

theorem codeWF_nodup {c : CodeUnit} {n : Nat} (h : codeWF c n = true) :
    (c.insts.map (fun i => i.offset)).Nodup := by
  rw [codeWF, Bool.and_eq_true] at h
  exact of_decide_eq_true h.2

theorem createCallFunction_LB (ctr nargs n : Nat) (hn : n ≤ ctr) :
    instsLB n (createCallFunction ctr nargs).1 ∧ ctr ≤ (createCallFunction ctr nargs).2 := by
  refine ⟨?_, Nat.le_succ ctr⟩
  intro i hi
  rcases List.mem_singleton.1 hi with rfl
  exact instLB_mkA n ctr _ _ hn

theorem loadTupleAndCall_LB (ver ctr : Nat) (tup : List String) (n : Nat) (hn : n ≤ ctr) :
    instsLB n (loadTupleAndCall ver ctr tup).1 ∧ ctr ≤ (loadTupleAndCall ver ctr tup).2 := by
  obtain ⟨hpn1, hpn2⟩ := initialPushNull_LB ver ctr n hn
  unfold loadTupleAndCall
  dsimp only
  constructor
  · refine instsLB_append (instsLB_append hpn1 ?_) ?_
    · intro i hi
      rcases List.mem_map.1 hi with ⟨p, hp, rfl⟩
      exact instLB_mkV n _ _ _ (by omega)
    · intro i hi
      simp only [createCallFunction] at hi
      rcases List.mem_singleton.1 hi with rfl
      exact instLB_mkA n _ _ _ (by omega)
  · simp only [createCallFunction]
    omega

theorem emitNulls_LB (i : Nat) :
    ∀ (xs : List Nat) (ni ctr n : Nat), n ≤ ctr →
      instsLB n (emitNulls i xs ni ctr).1 ∧ ctr ≤ (emitNulls i xs ni ctr).2.2.2 := by
  intro xs
  induction xs with
  | nil => intro ni ctr n hn; exact ⟨instsLB_nil n, Nat.le_refl ctr⟩
  | cons x rest ih =>
    intro ni ctr n hn
    rw [emitNulls]
    split
    · obtain ⟨h1, h2⟩ := ih (ni + 1) (ctr + 1) n (by omega)
      dsimp only
      constructor
      · intro j hj
        rcases List.mem_cons.1 hj with rfl | hj2
        · exact instLB_mk n ctr _ hn
        · exact h1 j hj2
      · omega
    · exact ⟨instsLB_nil n, Nat.le_refl ctr⟩

/-- The uid discipline of the split with-template: parts and the advanced
counter stay at or above the input counter. -/
theorem call_tail_LB (ver : Nat) (si : Int) (C n : Nat) (hnC : n ≤ C)
    (sep : List Instruction × List Instruction × Nat)
    (hbfts : bytecodeFromTemplateWithSplit (withTemplateCompiled ver C).1 si
      (withTemplateCompiled ver C).2 = .ok sep) :
    instsLB n sep.1 ∧ instsLB n sep.2.1 ∧ C ≤ sep.2.2 := by
  have hw := withTemplate_LB ver C n hnC
  have hwC := withTemplate_LB ver C C (Nat.le_refl C)
  obtain ⟨hS, hE, hc⟩ := bfts_LB _ si _ sep.1 sep.2.1 sep.2.2 n hw.1 hw.2 hbfts
  refine ⟨hS, hE, ?_⟩
  have := hwC.2
  omega

/-- The success leaf of the direct re-entry splice, with every component
named explicitly. -/
theorem call_ok_LB (ver : Nat) (si : Int) (ctr n : Nat) (hn : n ≤ ctr)
    (pnc1 : List Instruction) (c1 : Nat) (hpnc : instsLB n pnc1) (hc1 : ctr ≤ c1)
    (vals : List String) (cleanup : List Instruction) (hcl : instsLB n cleanup)
    (sep : List Instruction × List Instruction × Nat)
    (hbfts : bytecodeFromTemplateWithSplit
      (withTemplateCompiled ver (createCallFunction (c1 + vals.length) vals.length).2).1 si
      (withTemplateCompiled ver (createCallFunction (c1 + vals.length) vals.length).2).2
      = .ok sep)
    (ci : Nat) (ctxInst : Instruction) (hctx : sep.1.get? ci = some ctxInst)
    (res : List Instruction × Option Instruction × List Instruction × Nat)
    (h' : (pnc1 ++ vals.enum.map (fun p => mkInstV (c1 + p.1) "LOAD_CONST" p.2) ++
        (createCallFunction (c1 + vals.length) vals.length).1 ++
        sep.1.set ci (overwriteNop ctxInst),
      (sep.2.1.filter (fun i => i.opname == "PUSH_EXC_INFO")).head?,
      sep.2.1 ++ cleanup, sep.2.2) = res) :
    instsLB n res.1 ∧ (∀ et, res.2.1 = some et → n ≤ et.uid) ∧
      instsLB n res.2.2.1 ∧ ctr ≤ res.2.2.2 := by
  have htail := call_tail_LB ver si (createCallFunction (c1 + vals.length) vals.length).2 n
    (by simp only [createCallFunction]; omega) sep hbfts
  simp only [createCallFunction] at htail
  obtain ⟨ht1, ht2, ht3⟩ := htail
  have hA : _ = res.1 := congrArg (fun p => p.1) h'
  have hB : _ = res.2.1 := congrArg (fun p => p.2.1) h'
  have hC2 : _ = res.2.2.1 := congrArg (fun p => p.2.2.1) h'
  have hD : _ = res.2.2.2 := congrArg (fun p => p.2.2.2) h'
  refine ⟨?_, ?_, ?_, ?_⟩
  · rw [← hA]
    refine instsLB_append (instsLB_append (instsLB_append hpnc ?_) ?_) ?_
    · intro i hi
      rcases List.mem_map.1 hi with ⟨p, hp, rfl⟩
      exact instLB_mkV n _ _ _ (by omega)
    · intro i hi
      simp only [createCallFunction] at hi
      rcases List.mem_singleton.1 hi with rfl
      exact instLB_mkA n _ _ _ (by omega)
    · intro i hi
      rcases List.mem_or_eq_of_mem_set hi with hi2 | rfl
      · exact ht1 i hi2
      · exact instLB_overwriteNop n ctxInst (ht1 ctxInst (List.get?_mem hctx))
  · intro et het
    rw [← hB] at het
    exact (ht2 et (List.mem_filter.1 (head?_mem het)).1).1
  · rw [← hC2]
    exact instsLB_append ht2 hcl
  · rw [← hD]
    show ctr ≤ sep.2.2
    omega

/-- Lower bounds through the direct re-entry splice: the emitted setup
fragment, the optional guard entry, and the new cleanup accumulator all
stay above the allocator floor, and the counter does not decrease. -/
theorem call_LB (rw : ReenterWith) (ver ctr : Nat) (cleanup : List Instruction)
    (res : List Instruction × Option Instruction × List Instruction × Nat)
    (n : Nat) (hn : n ≤ ctr) (hcl : instsLB n cleanup)
    (h : rw.call ver ctr cleanup = .ok res) :
    instsLB n res.1 ∧ (∀ et, res.2.1 = some et → n ≤ et.uid) ∧
      instsLB n res.2.2.1 ∧ ctr ≤ res.2.2.2 := by
  obtain ⟨hpn1, hpn2⟩ := initialPushNull_LB ver ctr n hn
  rcases htv : rw.target_values with _ | vs
  · simp only [ReenterWith.call, htv] at h
    split at h
    · exact Except.noConfusion h
    · rename_i sep hbfts
      split at h
      · exact Except.noConfusion h
      · rename_i ci hci
        split at h
        · exact Except.noConfusion h
        · rename_i ctxInst hctx
          split at h
          · injection h with h'
            exact call_ok_LB ver rw.stack_index ctr n hn _ _ hpn1 hpn2 _ cleanup hcl
              sep hbfts ci ctxInst hctx res h'
          · exact Except.noConfusion h
  · simp only [ReenterWith.call, htv] at h
    split at h
    · exact Except.noConfusion h
    · rename_i sep hbfts
      split at h
      · exact Except.noConfusion h
      · rename_i ci hci
        split at h
        · exact Except.noConfusion h
        · rename_i ctxInst hctx
          split at h
          · injection h with h'
            exact call_ok_LB ver rw.stack_index ctr n hn _ _ hpn1 hpn2 _ cleanup hcl
              sep hbfts ci ctxInst hctx res h'
          · exact Except.noConfusion h

theorem ctxVarsInsts_LB (ver : Nat) :
    ∀ (l : List (String × List String)) (ctr n : Nat), n ≤ ctr →
      instsLB n (ctxVarsInsts ver ctr l).1 ∧ ctr ≤ (ctxVarsInsts ver ctr l).2 := by
  intro l
  induction l with
  | nil => intro ctr n hn; exact ⟨instsLB_nil n, Nat.le_refl ctr⟩
  | cons p rest ih =>
    rcases p with ⟨nm, vals⟩
    intro ctr n hn
    rw [ctxVarsInsts]
    obtain ⟨hlt1, hlt2⟩ := loadTupleAndCall_LB ver (ctr + 1) vals n (by omega)
    obtain ⟨hih1, hih2⟩ := ih ((loadTupleAndCall ver (ctr + 1) vals).2 + 1) n (by omega)
    dsimp only
    constructor
    · intro i hi
      rcases List.mem_cons.1 hi with rfl | hi2
      · exact instLB_mkV n ctr _ _ hn
      · rcases List.mem_append.1 hi2 with hi3 | hi4
        · exact hlt1 i hi3
        · rcases List.mem_cons.1 hi4 with rfl | hi5
          · exact instLB_mkV n _ _ _ (by omega)
          · exact hih1 i hi5
    · omega

theorem argnamesNullInsts_LB (ver : Nat) (args : List String) :
    ∀ (l : List String) (ctr n : Nat) (lc : List Instruction × Nat), n ≤ ctr →
      argnamesNullInsts ver args ctr l = .ok lc →
      instsLB n lc.1 ∧ ctr ≤ lc.2 := by
  intro l
  induction l with
  | nil =>
    intro ctr n lc hn h
    injection h with h'
    rw [← h']
    exact ⟨instsLB_nil n, Nat.le_refl ctr⟩
  | cons v rest ih =>
    intro ctr n lc hn h
    rw [argnamesNullInsts] at h
    split at h
    · exact Except.noConfusion h
    · split at h
      · exact Except.noConfusion h
      · split at h
        · exact Except.noConfusion h
        · rename_i lc2 hrec
          injection h with h'
          obtain ⟨hr1, hr2⟩ := ih (ctr + 2) n lc2 (by omega) hrec
          rw [← h']
          constructor
          · intro i hi
            rcases List.mem_cons.1 hi with rfl | hi2
            · exact instLB_mk n ctr _ hn
            · rcases List.mem_cons.1 hi2 with rfl | hi3
              · exact instLB_mkV n _ _ _ (by omega)
              · exact hr1 i hi3
          · dsimp only
            omega

theorem frameSetup_LB (ver : Nat) (fv : List String) (ctr n : Nat) (hn : n ≤ ctr) :
    instsLB n (frameSetup ver fv ctr).1 ∧ ctr ≤ (frameSetup ver fv ctr).2 := by
  unfold frameSetup
  split
  · split
    · refine ⟨?_, by omega⟩
      intro i hi
      rcases List.mem_cons.1 hi with rfl | hi2
      · exact instLB_mkA n ctr _ _ hn
      · rcases List.mem_singleton.1 hi2 with rfl
        exact instLB_mkA n _ _ _ (by omega)
    · refine ⟨?_, by omega⟩
      intro i hi
      rcases List.mem_singleton.1 hi with rfl
      exact instLB_mkA n ctr _ _ hn
  · exact ⟨instsLB_nil n, Nat.le_refl ctr⟩

theorem unreachableCodes_LB (ctr n : Nat) (hn : n ≤ ctr) :
    instsLB n (unreachableCodes ctr).1 ∧ ctr ≤ (unreachableCodes ctr).2 := by
  refine ⟨?_, Nat.le_add_right ctr 2⟩
  intro i hi
  rcases List.mem_cons.1 hi with rfl | hi2
  · exact instLB_mkV n ctr _ _ hn
  · rcases List.mem_singleton.1 hi2 with rfl
    exact instLB_mkA n _ _ _ (by omega)

theorem dget_dpop_self {α β : Type} [DecidableEq α] (l : List (α × β)) (k : α) :
    dget (dpop l k) k = none := by
  induction l with
  | nil => rfl
  | cons p rest ih =>
    rcases p with ⟨a, b⟩
    by_cases ha : a = k
    · subst ha
      simp only [dpop, List.filter]
      rw [show (decide (a ≠ a)) = false by simp]
      simpa [dpop] using ih
    · simp only [dpop, List.filter]
      rw [show (decide (a ≠ k)) = true by simp [ha]]
      simp only [dget, if_neg ha]
      simpa [dpop] using ih

theorem dmem_dpop_self {α β : Type} [DecidableEq α] (l : List (α × β)) (k : α) :
    dmem (dpop l k) k = false := by
  simp [dmem, dget_dpop_self]

theorem prologueWithCleanup_LB (pfx1 cl : List Instruction) (ctr n : Nat)
    (h1 : instsLB n pfx1) (h2 : instsLB n cl) (hn : n ≤ ctr) :
    instsLB n (prologueWithCleanup pfx1 cl ctr).1 := by
  unfold prologueWithCleanup
  split
  · exact instsLB_append (instsLB_append h1 h2) ((unreachableCodes_LB ctr n hn).1)
  · exact h1

/-- The two possible shapes of an exception entry surviving the remap pass:
either its target was not a remap key and is unchanged, or it was rewritten
to one of the remap table's values. -/
theorem remapInst_target (remap : List (Nat × Nat)) (s : Instruction) (e : ExnEntry)
    (h : (remapInst remap s).exn = some e) :
    dget remap e.target = none ∨ ∃ w, (w, e.target) ∈ remap := by
  unfold remapInst at h
  split at h
  · rename_i hx
    rw [hx] at h
    exact Option.noConfusion h
  · rename_i e0 hx
    split at h
    · rename_i hdg
      rw [hx] at h
      injection h with h2
      left
      rw [← h2]
      exact hdg
    · rename_i t' hdg
      have h3 : some { e0 with target := t' } = some e := h
      injection h3 with h4
      right
      refine ⟨e0.target, ?_⟩
      have h5 : e.target = t' := by rw [← h4]
      rw [h5]
      exact dget_mem hdg

/-- The loop invariant of the stack-rehydration loop for region-remap
soundness over allocator floor `n`: all spliced fragments and the counter
stay at or above `n`, every remap value is a fresh uid, a pending hook
still sees its original recorded target offset, and every consumed hook
has installed a remap entry for the original instruction found at its
recorded target offset. -/
def C4Inv (n : Nat) (hooks0 : List (Int × ReenterWith)) (hookT0 : List (Int × Nat))
    (o2i : List (Nat × Instruction)) (acc : LoopAcc) : Prop :=
  instsLB n acc.pfx ∧ instsLB n acc.cleanup ∧ n ≤ acc.ctr ∧
  (∀ p ∈ acc.remap, n ≤ p.2) ∧
  (∀ si, dmem acc.hooks si = true → dget acc.hookTargets si = dget hookT0 si) ∧
  (∀ si, dmem hooks0 si = true → dmem acc.hooks si = false →
    ∀ o t, dget hookT0 si = some o → dget o2i o = some t →
      dmem acc.remap t.uid = true)

theorem processHook_inv (ver : Nat) (hv : 11 ≤ ver) (n : Nat)
    (hooks0 : List (Int × ReenterWith)) (hookT0 : List (Int × Nat))
    (o2i : List (Nat × Instruction)) (hook : ReenterWith) (i : Nat)
    (acc acc2 : LoopAcc) (h : processHook ver o2i hook i acc = .ok acc2)
    (hmem : dmem acc.hooks (Int.ofNat i) = true)
    (hinv : C4Inv n hooks0 hookT0 o2i acc) :
    C4Inv n hooks0 hookT0 o2i acc2 := by
  obtain ⟨hpfx, hcln, hctr, hrem, hpend, hcons⟩ := hinv
  simp only [processHook] at h
  split at h
  · exact Except.noConfusion h
  · rename_i res hcall
    obtain ⟨hc1, hc2, hc3, hc4⟩ := call_LB hook ver acc.ctr acc.cleanup res n hctr hcln hcall
    split at h
    · split at h
      · exact Except.noConfusion h
      · rename_i hto hgetT
        split at h
        · exact Except.noConfusion h
        · rename_i oldT hgetO
          split at h
          · exact Except.noConfusion h
          · rename_i et hexn
            injection h with h'
            rw [← h']
            dsimp only [C4Inv]
            refine ⟨instsLB_append hpfx hc1, hc3, Nat.le_trans hctr hc4, ?_, ?_, ?_⟩
            · intro p hp
              rcases mem_dinsert hp with hp2 | rfl
              · exact hrem p hp2
              · exact hc2 et hexn
            · intro si hsi
              by_cases hse : si = Int.ofNat i
              · rw [hse, dmem_dpop_self] at hsi
                exact Bool.noConfusion hsi
              · rw [dget_dpop_ne _ _ _ hse]
                rw [dmem_dpop_ne _ _ _ hse] at hsi
                exact hpend si hsi
            · intro si hs0 hs2 o t hgT hgO
              by_cases hse : si = Int.ofNat i
              · subst hse
                have he1 : dget hookT0 (Int.ofNat i) = some hto := by
                  rw [← hpend (Int.ofNat i) hmem]
                  exact hgetT
                rw [hgT] at he1
                injection he1 with he2
                rw [← he2] at hgetO
                rw [hgO] at hgetO
                injection hgetO with he3
                rw [he3]
                exact dmem_dinsert_self acc.remap oldT.uid et.uid
              · rw [dmem_dpop_ne _ _ _ hse] at hs2
                exact dmem_dinsert_mono _ _ _ _ (hcons si hs0 hs2 o t hgT hgO)
    · rename_i hnv
      exact absurd hv hnv

theorem stackLoopStep_inv (ver : Nat) (hv : 11 ≤ ver) (n : Nat)
    (hooks0 : List (Int × ReenterWith)) (hookT0 : List (Int × Nat))
    (o2i : List (Nat × Instruction)) (scv : List (Nat × List String))
    (acc : LoopAcc) (i : Nat) (acc2 : LoopAcc)
    (h : stackLoopStep ver o2i scv acc i = .ok acc2)
    (hinv : C4Inv n hooks0 hookT0 o2i acc) :
    C4Inv n hooks0 hookT0 o2i acc2 := by
  obtain ⟨hpfx, hcln, hctr, hrem, hpend, hcons⟩ := hinv
  obtain ⟨hem1, hem2⟩ := emitNulls_LB i acc.nullRem acc.ni acc.ctr n hctr
  have hinv1 : C4Inv n hooks0 hookT0 o2i { acc with
      pfx := acc.pfx ++ (emitNulls i acc.nullRem acc.ni acc.ctr).1 ++
        [mkInstV (emitNulls i acc.nullRem acc.ni acc.ctr).2.2.2 "LOAD_FAST" (stackName i)],
      nullRem := (emitNulls i acc.nullRem acc.ni acc.ctr).2.1,
      ni := (emitNulls i acc.nullRem acc.ni acc.ctr).2.2.1,
      ctr := (emitNulls i acc.nullRem acc.ni acc.ctr).2.2.2 + 1 } := by
    dsimp only [C4Inv]
    refine ⟨?_, hcln, ?_, hrem, hpend, hcons⟩
    · refine instsLB_append (instsLB_append hpfx hem1) ?_
      intro j hj
      rcases List.mem_singleton.1 hj with rfl
      exact instLB_mkV n _ _ _ (by omega)
    · omega
  simp only [stackLoopStep] at h
  split at h
  · exact Except.noConfusion h
  · rename_i accH hHook
    have hinvH : C4Inv n hooks0 hookT0 o2i accH := by
      split at hHook
      · injection hHook with h2
        rw [← h2]
        exact hinv1
      · rename_i hook hdget
        refine processHook_inv ver hv n hooks0 hookT0 o2i hook i _ accH hHook ?_ hinv1
        have hd2 : dget acc.hooks (Int.ofNat i) = some hook := hdget
        have hm : (dget acc.hooks (Int.ofNat i)).isSome = true := by
          rw [hd2]
          rfl
        exact hm
    split at h
    · injection h with h2
      rw [← h2]
      exact hinvH
    · rename_i vals hscv
      injection h with h2
      rw [← h2]
      obtain ⟨hH1, hH2, hH3, hH4, hH5, hH6⟩ := hinvH
      obtain ⟨hlt1, hlt2⟩ := loadTupleAndCall_LB ver accH.ctr vals n hH3
      dsimp only [C4Inv]
      refine ⟨instsLB_append hH1 hlt1, hH2, ?_, hH4, hH5, hH6⟩
      show n ≤ (loadTupleAndCall ver accH.ctr vals).2
      omega

theorem stackLoop_inv (ver : Nat) (hv : 11 ≤ ver) (n : Nat)
    (hooks0 : List (Int × ReenterWith)) (hookT0 : List (Int × Nat))
    (o2i : List (Nat × Instruction)) (scv : List (Nat × List String)) :
    ∀ (idxs : List Nat) (acc acc' : LoopAcc),
      stackLoop ver o2i scv idxs acc = .ok acc' →
      C4Inv n hooks0 hookT0 o2i acc → C4Inv n hooks0 hookT0 o2i acc' := by
  intro idxs
  induction idxs with
  | nil =>
    intro acc acc' h hin
    unfold stackLoop at h
    injection h with h'
    rw [← h']
    exact hin
  | cons i rest ih =>
    intro acc acc' h hin
    unfold stackLoop at h
    split at h
    · exact Except.noConfusion h
    · rename_i accm hstep
      exact ih accm acc' h
        (stackLoopStep_inv ver hv n hooks0 hookT0 o2i scv acc i accm hstep hin)

/-- C4: on a 3.11+ host (structural exception regions), after a successful
root synthesis whose re-entry descriptors occupy pairwise distinct stack
slots, no exception entry of the generated body targets the original
instruction recorded at any re-entry target offset: entries of the copied
original stream that pointed there have been rewritten to freshly
synthesized guard-entry uids, and all prologue entries are fresh. -/
theorem c4_region_remap_sound (ver : Nat) (st : CacheState) (c : CodeUnit) (lineno : Nat)
    (k : ResumeKey) (u : CodeUnit) (st' : CacheState)
    (hv : 11 ≤ ver) (hwf : codeWF c st.nextId = true)
    (hnd : (k.setup_fns.map (fun f => f.stack_index)).Nodup)
    (hgen : generateRoot ver st c lineno k = .ok (u, st'))
    (j : Nat) (fn : ReenterWith) (o : Nat) (t : Instruction)
    (hfn : k.setup_fns.get? j = some fn) (ho : k.setup_fn_target_offsets.get? j = some o)
    (ht : t ∈ c.insts) (htoff : t.offset = some o) :
    ∀ inst ∈ u.insts, ∀ e, inst.exn = some e → e.target ≠ t.uid := by
  have huidt : t.uid < st.nextId := codeWF_uid_lt hwf t ht
  have ho2i : dget (offsetToInst c.insts) o = some t :=
    dget_offsetToInst c.insts t o ht htoff (codeWF_nodup hwf)
  simp only [generateRoot] at hgen
  split at hgen
  · exact Except.noConfusion hgen
  · rename_i target hfind
    split at hgen
    · exact Except.noConfusion hgen
    · rename_i hookT hbt
      have hhookT : dget hookT fn.stack_index = some o :=
        buildHookTargets_get k.setup_fns k.setup_fn_target_offsets hookT hnd hbt j fn o hfn ho
      split at hgen
      · exact Except.noConfusion hgen
      · rename_i acc hloop
        split at hgen
        · exact Except.noConfusion hgen
        · rename_i hno
          split at hgen
          · exact Except.noConfusion hgen
          · rename_i anic hani
            split at hgen
            · exact Except.noConfusion hgen
            · rename_i hra
              injection hgen with h'
              have hu : _ = u := congrArg Prod.fst h'
              have hinvF : C4Inv st.nextId (buildHooks k.setup_fns) hookT
                  (offsetToInst c.insts) acc := by
                refine stackLoop_inv ver hv st.nextId _ _ _ _ _ _ acc hloop ?_
                dsimp only [C4Inv]
                refine ⟨?_, instsLB_nil _, ?_, ?_, ?_, ?_⟩
                · exact (frameSetup_LB ver _ st.nextId st.nextId (Nat.le_refl _)).1
                · exact (frameSetup_LB ver _ st.nextId st.nextId (Nat.le_refl _)).2
                · intro p hp
                  cases hp
                · intro si _
                  rfl
                · intro si h1 h2 o2 t2 h3 h4
                  exact Bool.noConfusion (h1.symm.trans h2)
              obtain ⟨hiPfx, hiCln, hiCtr, hiRem, hiPend, hiCons⟩ := hinvF
              have heqh : acc.hooks = [] := not_not.1 hno
              have hs0 : dmem (buildHooks k.setup_fns) fn.stack_index = true :=
                mem_buildHooks k.setup_fns fn (List.get?_mem hfn)
              have hsF : dmem acc.hooks fn.stack_index = false := by
                rw [heqh]
                rfl
              have hremT : dmem acc.remap t.uid = true :=
                hiCons fn.stack_index hs0 hsF o t hhookT ho2i
              have hremNe : acc.remap ≠ [] := by
                intro hh
                rw [hh] at hremT
                exact Bool.noConfusion hremT
              obtain ⟨hcv1, hcv2⟩ :=
                ctxVarsInsts_LB ver k.argnames_ctx_vars acc.ctr st.nextId hiCtr
              obtain ⟨han1, han2⟩ := argnamesNullInsts_LB ver
                (preparedOptions ver c lineno k).2 k.argnames_null
                (ctxVarsInsts ver acc.ctr k.argnames_ctx_vars).2 st.nextId anic
                (Nat.le_trans hiCtr hcv2) hani
              have hpfx1 : instsLB st.nextId (acc.pfx ++
                  (ctxVarsInsts ver acc.ctr k.argnames_ctx_vars).1 ++ anic.1 ++
                  [{ mkInst anic.2 "JUMP_ABSOLUTE" with
                      jumpTargetUid := some target.uid }]) := by
                refine instsLB_append (instsLB_append (instsLB_append hiPfx hcv1) han1) ?_
                intro i2 hi2
                rcases List.mem_singleton.1 hi2 with rfl
                exact ⟨Nat.le_trans (Nat.le_trans hiCtr hcv2) han2,
                  fun e2 he2 => Option.noConfusion he2⟩
              have hpc1 : instsLB st.nextId
                  ((prologueWithCleanup (acc.pfx ++
                    (ctxVarsInsts ver acc.ctr k.argnames_ctx_vars).1 ++ anic.1 ++
                    [{ mkInst anic.2 "JUMP_ABSOLUTE" with
                        jumpTargetUid := some target.uid }])
                    acc.cleanup (anic.2 + 1)).1) :=
                prologueWithCleanup_LB _ _ _ _ hpfx1 hiCln
                  (Nat.le_trans (Nat.le_trans (Nat.le_trans hiCtr hcv2) han2) (Nat.le_succ _))
              intro inst hinst e hexn
              rw [← hu] at hinst
              simp only [buildCode, assemble] at hinst
              obtain ⟨i0, hi0, huid0, hexn0⟩ := assembleFrom_mem_shape 0 _ inst hinst
              have hexn1 : i0.exn = some e := by
                rw [← hexn0]
                exact hexn
              rcases List.mem_append.1 hi0 with hp | hf
              · have h6 := (hpc1 i0 hp).2 e hexn1
                omega
              · unfold finalOriginals at hf
                rw [if_pos hremNe] at hf
                unfold remapExnTargets at hf
                rcases List.mem_map.1 hf with ⟨s, hs, rfl⟩
                rcases remapInst_target acc.remap s e hexn1 with hcase | ⟨w, hw⟩
                · intro hne
                  rw [hne] at hcase
                  unfold dmem at hremT
                  rw [hcase] at hremT
                  exact Bool.noConfusion hremT
                · have h7 : st.nextId ≤ e.target := hiRem (w, e.target) hw
                  omega

/-- A successful 3.11-era root synthesis over `rootG` used by the C4
witness. -/
def runB11 : CodeUnit × CacheState :=
  match generateRoot 11 st0 rootG 7 kB with
  | .ok r => r
  | .error _ => (rootG, st0)

/-- Witness for C4: the concrete 3.11 synthesis over `rootG` rewrites the
exception entry that pointed at the original handler (uid 22, recorded
hook target offset 2), so no entry of the generated body targets it. -/
theorem c4_region_remap_sound_witness :
    codeWF rootG st0.nextId = true ∧
      generateRoot 11 st0 rootG 7 kB = .ok (runB11.1, runB11.2) ∧
      (∀ inst ∈ runB11.1.insts, ∀ e, inst.exn = some e →
        e.target ≠ ({ mkInst 22 "PUSH_EXC_INFO" with offset := some 2 } : Instruction).uid) :=
  ⟨by decide, rfl,
    c4_region_remap_sound 11 st0 rootG 7 kB runB11.1 runB11.2 (by decide) (by decide)
      (by decide) rfl 0 ⟨0, none⟩ 2 { mkInst 22 "PUSH_EXC_INFO" with offset := some 2 }
      rfl rfl (by decide) rfl⟩

/-! ## C1 — rootedness / single-hop lineage -/

/-- The rootedness invariant of the metadata table: the unit a metadata
entry redirects to carries no metadata entry of its own (it is not itself
a generated unit). -/
def rootInv (st : CacheState) : Bool :=
  st.metadata.all (fun p => (metaGet st p.2.code.uid).isNone)

theorem rootInv_none {st : CacheState} {cuid : Nat} {m : ResumeFunctionMetadata}
    (hr : rootInv st = true) (hm : metaGet st cuid = some m) :
    metaGet st m.code.uid = none := by
  have hmem : (cuid, m) ∈ st.metadata := dget_mem hm
  rw [rootInv, List.all_eq_true] at hr
  have h3 : (metaGet st m.code.uid).isNone = true := hr (cuid, m) hmem
  cases hx : metaGet st m.code.uid with
  | none => rfl
  | some m2 =>
    rw [hx] at h3
    exact Bool.noConfusion h3

theorem generateFn_flags_err (ver : Nat)
    (lf : CacheState → CodeUnit → Nat → ResumeKey → Except Err (CodeUnit × CacheState × Nat))
    (st : CacheState) (c : CodeUnit) (lineno : Nat) (k : ResumeKey)
    (h : c.flags &&& genLikeMask ≠ 0 ∨ c.flags &&& CO_OPTIMIZED = 0) :
    generateFn ver lf st c lineno k = .error .unsupportedUnitKind := by
  unfold generateFn
  rcases h with h | h
  · rw [if_pos h]
  · by_cases h2 : c.flags &&& genLikeMask ≠ 0
    · rw [if_pos h2]
    · rw [if_neg h2, if_pos h]

theorem generateFn_root (ver : Nat)
    (lf : CacheState → CodeUnit → Nat → ResumeKey → Except Err (CodeUnit × CacheState × Nat))
    (st : CacheState) (c : CodeUnit) (lineno : Nat) (k : ResumeKey)
    (hf1 : ¬ c.flags &&& genLikeMask ≠ 0) (hf2 : ¬ c.flags &&& CO_OPTIMIZED = 0)
    (hnone : metaGet st c.uid = none) (rr : CodeUnit × CacheState)
    (hg : generateRoot ver st c lineno k = .ok rr) :
    generateFn ver lf st c lineno k = .ok (rr.1, rr.2, 0) := by
  unfold generateFn
  rw [if_neg hf1, if_neg hf2, hnone]
  simp only []
  rw [hg]

theorem generateFn_root_err (ver : Nat)
    (lf : CacheState → CodeUnit → Nat → ResumeKey → Except Err (CodeUnit × CacheState × Nat))
    (st : CacheState) (c : CodeUnit) (lineno : Nat) (k : ResumeKey)
    (hf1 : ¬ c.flags &&& genLikeMask ≠ 0) (hf2 : ¬ c.flags &&& CO_OPTIMIZED = 0)
    (hnone : metaGet st c.uid = none) (e : Err)
    (hg : generateRoot ver st c lineno k = .error e) :
    generateFn ver lf st c lineno k = .error e := by
  unfold generateFn
  rw [if_neg hf1, if_neg hf2, hnone]
  simp only []
  rw [hg]

theorem generateFn_redirect (ver : Nat)
    (lf : CacheState → CodeUnit → Nat → ResumeKey → Except Err (CodeUnit × CacheState × Nat))
    (st : CacheState) (c : CodeUnit) (lineno : Nat) (k : ResumeKey)
    (m : ResumeFunctionMetadata) (ks : ResumeKey × CacheState)
    (r : CodeUnit × CacheState × Nat)
    (hf1 : ¬ c.flags &&& genLikeMask ≠ 0) (hf2 : ¬ c.flags &&& CO_OPTIMIZED = 0)
    (hm : metaGet st c.uid = some m)
    (htr : translateRequest ver st c m k = .ok ks)
    (hin : lf ks.2 m.code lineno ks.1 = .ok r) :
    generateFn ver lf st c lineno k = .ok (r.1, r.2.1, r.2.2 + 1) := by
  unfold generateFn
  rw [if_neg hf1, if_neg hf2, hm]
  simp only []
  rw [htr]
  simp only []
  rw [hin]

theorem generateFn_redirect_err1 (ver : Nat)
    (lf : CacheState → CodeUnit → Nat → ResumeKey → Except Err (CodeUnit × CacheState × Nat))
    (st : CacheState) (c : CodeUnit) (lineno : Nat) (k : ResumeKey)
    (m : ResumeFunctionMetadata) (e : Err)
    (hf1 : ¬ c.flags &&& genLikeMask ≠ 0) (hf2 : ¬ c.flags &&& CO_OPTIMIZED = 0)
    (hm : metaGet st c.uid = some m)
    (htr : translateRequest ver st c m k = .error e) :
    generateFn ver lf st c lineno k = .error e := by
  unfold generateFn
  rw [if_neg hf1, if_neg hf2, hm]
  simp only []
  rw [htr]

theorem generateFn_redirect_err2 (ver : Nat)
    (lf : CacheState → CodeUnit → Nat → ResumeKey → Except Err (CodeUnit × CacheState × Nat))
    (st : CacheState) (c : CodeUnit) (lineno : Nat) (k : ResumeKey)
    (m : ResumeFunctionMetadata) (ks : ResumeKey × CacheState) (e : Err)
    (hf1 : ¬ c.flags &&& genLikeMask ≠ 0) (hf2 : ¬ c.flags &&& CO_OPTIMIZED = 0)
    (hm : metaGet st c.uid = some m)
    (htr : translateRequest ver st c m k = .ok ks)
    (hin : lf ks.2 m.code lineno ks.1 = .error e) :
    generateFn ver lf st c lineno k = .error e := by
  unfold generateFn
  rw [if_neg hf1, if_neg hf2, hm]
  simp only []
  rw [htr]
  simp only []
  rw [hin]

/-- The key translation either leaves the state untouched or only memoizes
the freshly computed remap table into the requesting unit's metadata. -/
theorem translateRequest_state (ver : Nat) (st : CacheState) (c : CodeUnit)
    (m : ResumeFunctionMetadata) (k : ResumeKey) (ks : ResumeKey × CacheState)
    (h : translateRequest ver st c m k = .ok ks) :
    ks.2 = st ∨ ∃ m2, ks.2 = metaSet st c.uid m2 := by
  simp only [translateRequest] at h
  split at h
  · exact Except.noConfusion h
  · rename_i newOff hfno
    split at h
    · split at h
      · exact Except.noConfusion h
      · rename_i offs2 hta
        injection h with h'
        have hs : _ = ks.2 := congrArg Prod.snd h'
        rcases hb : m.blockTargetOffsetRemap with _ | rr
        · rw [hb] at hs
          exact Or.inr ⟨_, hs.symm⟩
        · rw [hb] at hs
          simp only [] at hs
          by_cases hre : rr.isEmpty = true
          · rw [hre] at hs
            exact Or.inr ⟨_, hs.symm⟩
          · have hre2 : rr.isEmpty = false := Bool.of_not_eq_true hre
            rw [hre2] at hs
            have hs2 : st = ks.2 := hs
            exact Or.inl hs2.symm
    · injection h with h'
      left
      exact (congrArg Prod.snd h').symm

/-- On a unit with no metadata (a root), a successful lookup is fuel
irrelevant and makes no redirection hop. -/
theorem lookupAux_root_fuel (ver : Nat) (st : CacheState) (c : CodeUnit) (lineno : Nat)
    (k : ResumeKey) (hnone : metaGet st c.uid = none)
    (fuel : Nat) (r : CodeUnit × CacheState × Nat)
    (h : lookupAux ver (fuel + 1) st c lineno k = .ok r) :
    r.2.2 = 0 ∧ ∀ f2, lookupAux ver (f2 + 1) st c lineno k = .ok r := by
  unfold lookupAux at h
  cases hc : cacheGet st c.uid k with
  | some u0 =>
    rw [hc] at h
    injection h with h'
    constructor
    · exact (congrArg (fun p => p.2.2) h').symm
    · intro f2
      unfold lookupAux
      rw [hc]
      exact congrArg Except.ok h'
  | none =>
    rw [hc] at h
    by_cases hf1 : c.flags &&& genLikeMask ≠ 0
    · rw [generateFn_flags_err ver _ st c lineno k (Or.inl hf1)] at h
      exact Except.noConfusion h
    · by_cases hf2 : c.flags &&& CO_OPTIMIZED = 0
      · rw [generateFn_flags_err ver _ st c lineno k (Or.inr hf2)] at h
        exact Except.noConfusion h
      · cases hg : generateRoot ver st c lineno k with
        | error e =>
          rw [generateFn_root_err ver _ st c lineno k hf1 hf2 hnone e hg] at h
          exact Except.noConfusion h
        | ok rr =>
          rw [generateFn_root ver _ st c lineno k hf1 hf2 hnone rr hg] at h
          injection h with h'
          constructor
          · exact (congrArg (fun p => p.2.2) h').symm
          · intro f2
            unfold lookupAux
            rw [hc, generateFn_root ver (lookupAux ver f2) st c lineno k hf1 hf2 hnone rr hg]
            exact congrArg Except.ok h'

/-- C1: under the rootedness invariant, a lookup on a generated unit
resolves through its metadata in at most one hop: the unit the metadata
redirects to carries no metadata itself (it is a root), the hop count
never exceeds one, fuel two suffices (extra fuel changes nothing), the
result is memoized for the requesting generated unit, and when a redirect
actually happened (one hop) the same unit is also memoized on the root
under the translated key, where any later request — whatever its line —
returns the very same unit with zero hops and no state change. -/
theorem c1_single_hop_lineage (ver : Nat) (st : CacheState) (c : CodeUnit) (lineno : Nat)
    (k : ResumeKey) (m : ResumeFunctionMetadata) (u : CodeUnit) (st' : CacheState)
    (hops : Nat)
    (hroot : rootInv st = true) (hm : metaGet st c.uid = some m)
    (hlk : lookupAux ver 2 st c lineno k = .ok (u, st', hops)) :
    metaGet st m.code.uid = none ∧ hops ≤ 1 ∧
      (∀ n, lookupAux ver (n + 2) st c lineno k = .ok (u, st', hops)) ∧
      cacheGet st' c.uid k = some u ∧
      (hops = 1 → ∃ k2, cacheGet st' m.code.uid k2 = some u ∧
        ∀ f2 l2, lookupAux ver (f2 + 1) st' m.code l2 k2 = .ok (u, st', 0)) := by
  have h1 : metaGet st m.code.uid = none := rootInv_none hroot hm
  have hne : m.code.uid ≠ c.uid := by
    intro he
    rw [he, hm] at h1
    exact Option.noConfusion h1
  have hlk2 : lookupAux ver (0 + 1 + 1) st c lineno k = .ok (u, st', hops) := hlk
  unfold lookupAux at hlk2
  cases hc : cacheGet st c.uid k with
  | some u0 =>
    rw [hc] at hlk2
    injection hlk2 with h'
    have hu : u0 = u := congrArg Prod.fst h'
    have hst : st = st' := congrArg (fun p => p.2.1) h'
    have hh : (0 : Nat) = hops := congrArg (fun p => p.2.2) h'
    refine ⟨h1, by omega, ?_, ?_, ?_⟩
    · intro n
      show lookupAux ver (n + 1 + 1) st c lineno k = .ok (u, st', hops)
      unfold lookupAux
      rw [hc]
      exact congrArg Except.ok h'
    · rw [← hst, ← hu]
      exact hc
    · intro h5
      exact absurd (hh.trans h5) (by decide)
  | none =>
    rw [hc] at hlk2
    by_cases hf1 : c.flags &&& genLikeMask ≠ 0
    · rw [generateFn_flags_err ver (lookupAux ver (0 + 1)) st c lineno k (Or.inl hf1)] at hlk2
      exact Except.noConfusion hlk2
    · by_cases hf2 : c.flags &&& CO_OPTIMIZED = 0
      · rw [generateFn_flags_err ver (lookupAux ver (0 + 1)) st c lineno k
          (Or.inr hf2)] at hlk2
        exact Except.noConfusion hlk2
      · cases htr : translateRequest ver st c m k with
        | error e =>
          rw [generateFn_redirect_err1 ver (lookupAux ver (0 + 1)) st c lineno k m e
            hf1 hf2 hm htr] at hlk2
          exact Except.noConfusion hlk2
        | ok ks =>
          have hksm : metaGet ks.2 m.code.uid = none := by
            rcases translateRequest_state ver st c m k ks htr with hs | ⟨m2, hs⟩
            · rw [hs]
              exact h1
            · rw [hs, metaGet_metaSet_ne st c.uid m.code.uid m2 hne]
              exact h1
          cases hin : lookupAux ver (0 + 1) ks.2 m.code lineno ks.1 with
          | error e =>
            rw [generateFn_redirect_err2 ver (lookupAux ver (0 + 1)) st c lineno k m ks e
              hf1 hf2 hm htr hin] at hlk2
            exact Except.noConfusion hlk2
          | ok r =>
            obtain ⟨hr0, hrfuel⟩ :=
              lookupAux_root_fuel ver ks.2 m.code lineno ks.1 hksm 0 r hin
            rw [generateFn_redirect ver (lookupAux ver (0 + 1)) st c lineno k m ks r
              hf1 hf2 hm htr hin] at hlk2
            injection hlk2 with h'
            have hu : r.1 = u := congrArg Prod.fst h'
            have hst : cacheSet r.2.1 c.uid k r.1 = st' := congrArg (fun p => p.2.1) h'
            have hh : r.2.2 + 1 = hops := congrArg (fun p => p.2.2) h'
            obtain ⟨hcacheR, _⟩ := lookupAux_memoizes ver (0 + 1) ks.2 m.code lineno ks.1
              r.1 r.2.1 r.2.2 hin
            have hc5 : cacheGet st' m.code.uid ks.1 = some u := by
              rw [← hst, cacheGet_cacheSet_ne r.2.1 c.uid m.code.uid k ks.1 r.1 hne,
                hcacheR, hu]
            refine ⟨h1, by omega, ?_, ?_, ?_⟩
            · intro n
              show lookupAux ver (n + 1 + 1) st c lineno k = .ok (u, st', hops)
              unfold lookupAux
              rw [hc, generateFn_redirect ver (lookupAux ver (n + 1)) st c lineno k m ks r
                hf1 hf2 hm htr (hrfuel n)]
              exact congrArg Except.ok h'
            · rw [← hst, ← hu]
              exact cacheGet_cacheSet_self r.2.1 c.uid k r.1
            · intro h5
              refine ⟨ks.1, hc5, ?_⟩
              intro f2 l2
              unfold lookupAux
              rw [hc5]

/-- A resume key requesting offset 4 of the generated fixture unit. -/
def kA4 : ResumeKey := ⟨4, [], 0, [], [], [], [], [], []⟩

/-- The redirected lookup on the generated fixture unit `genA`. -/
def runC1 : CodeUnit × CacheState × Nat :=
  match lookupAux 10 2 stA genA 7 kA4 with
  | .ok r => r
  | .error _ => (rootF, st0, 0)

/-- The metadata the fixture state records for `genA`. -/
def metaA : ResumeFunctionMetadata :=
  match metaGet stA genA.uid with
  | some m => m
  | none => ⟨rootF, [], [], none⟩

/-- Witness for C1: in the fixture state seeded by one root synthesis, a
lookup on the generated unit redirects through its metadata to the root in
one hop, with all the single-hop clauses instantiated concretely. -/
theorem c1_single_hop_lineage_witness :
    rootInv stA = true ∧ metaGet stA genA.uid = some metaA ∧
      lookupAux 10 2 stA genA 7 kA4 = .ok (runC1.1, runC1.2.1, runC1.2.2) ∧
      (metaGet stA metaA.code.uid = none ∧ runC1.2.2 ≤ 1 ∧
        (∀ n, lookupAux 10 (n + 2) stA genA 7 kA4 =
          .ok (runC1.1, runC1.2.1, runC1.2.2)) ∧
        cacheGet runC1.2.1 genA.uid kA4 = some runC1.1 ∧
        (runC1.2.2 = 1 → ∃ k2, cacheGet runC1.2.1 metaA.code.uid k2 = some runC1.1 ∧
          ∀ f2 l2, lookupAux 10 (f2 + 1) runC1.2.1 metaA.code l2 k2 =
            .ok (runC1.1, runC1.2.1, 0))) :=
  ⟨by decide, rfl, rfl,
    c1_single_hop_lineage 10 stA genA 7 kA4 metaA runC1.1 runC1.2.1 runC1.2.2
      (by decide) rfl rfl⟩

end ResumeExecution
